import Mathlib

/-!
Verification of the inline markup transformer of the Foundry-JSON-reader
repository (`src/utils/foundryParser.ts`).

JavaScript strings are modelled as `List Char`.  Each regular-expression
rewrite stage of `processFoundryTags` is modelled by an explicit left-to-right
scanner (`rwScan` and `rwScanO`) driven by a per-stage matcher; lazy groups
(`.*?`, which in JavaScript matches any character except line terminators)
are modelled by the backtracking combinator `lazyFind`, which tries the
continuation at every position from left to right, exactly as the regex
engine explores a lazy quantifier.  The hand-rolled bracket-depth scanner of
the source (`parseAndReplace`) is translated directly.  The recursion of the
Localize stage into the whole transformer is made total with an explicit
recursion-depth budget (`depth`); a call returns `none` when the budget is
exhausted, so genuine divergence of the source is expressed as "no budget
suffices".
-/

/-- Abbreviation turning a Lean string literal into the `List Char` model of a
JavaScript string. -/
def lc (s : String) : List Char := s.data

/-- The left brace character (written by code so that brace characters never
occur inside string literals of this file). -/
def lbrace : Char := '\x7b'

/-- The right brace character. -/
def rbrace : Char := '\x7d'

/-- The two-character fragment (a closing bracket followed by an opening
brace) that separates a directive's argument from its label in the
`...]\x7b...\x7d` regexes. -/
def rbLb : List Char := ']' :: [lbrace]

/-- Character class of the regex dot in JavaScript (without the `s` flag):
any character except the four line terminators. -/
def isDot (c : Char) : Bool :=
  c != '\n' && c != '\r' && c != '\u2028' && c != '\u2029'

/-- Whitespace recognised by JavaScript `String.prototype.trim`. -/
def isJsWs (c : Char) : Bool :=
  c == ' ' || c == '\t' || c == '\n' || c == '\r' || c == '\x0b' || c == '\x0c' ||
  c == '\u00a0' || c == '\ufeff' || c == '\u1680' || c == '\u2000' || c == '\u2001' ||
  c == '\u2002' || c == '\u2003' || c == '\u2004' || c == '\u2005' || c == '\u2006' ||
  c == '\u2007' || c == '\u2008' || c == '\u2009' || c == '\u200a' || c == '\u2028' ||
  c == '\u2029' || c == '\u202f' || c == '\u205f' || c == '\u3000'

/-- Model of JavaScript `String.prototype.trim`. -/
def jsTrim (s : List Char) : List Char :=
  ((s.dropWhile isJsWs).reverse.dropWhile isJsWs).reverse

/-- Model of `s.charAt(0).toUpperCase() + s.slice(1)`. -/
def capitalizeList : List Char → List Char
  | [] => []
  | c :: r => c.toUpper :: r

/-- Model of `String.prototype.toLowerCase` (character-wise). -/
def toLowerList (s : List Char) : List Char := s.map Char.toLower

/-- Model of `key.split('.').pop() ?? key` (the split of a string is never
empty, so the pop always succeeds). -/
def lastSeg (key : List Char) : List Char :=
  (List.splitOn '.' key).getLastD key

/-- Bold fallback markup `<strong>...</strong>` used throughout the source. -/
def strongWrap (s : List Char) : List Char := lc "<strong>" ++ s ++ lc "</strong>"

/-- Emphasis markup `<em>...</em>` used by the Condition rule. -/
def emWrap (s : List Char) : List Char := lc "<em>" ++ s ++ lc "</em>"

/-!  The localization dictionary (`localizationData`): a JSON-like nested
object.  `resolvePath` walks it with `hasOwnProperty` checks. -/

/-- JSON-like value stored in the localization dictionary. -/
inductive LocData where
  | str (s : List Char)
  | num (n : Int)
  | bool (b : Bool)
  | nul
  | obj (fields : List (List Char × LocData))

/-- JavaScript falsiness of a `LocData` value (used by the `!object` guard at
the top of `resolvePath`). -/
def jsFalsy : LocData → Bool
  | .str s => s.isEmpty
  | .num n => n == 0
  | .bool b => !b
  | .nul => true
  | .obj _ => false

/-- One step of the walk in `resolvePath`: the current value must be an
object (not null, `typeof === 'object'`) owning the property. -/
def getProp : LocData → List Char → Option LocData
  | .obj fields, k => (fields.find? (fun p => p.1 == k)).map (fun p => p.2)
  | _, _ => none

/-- The segment-by-segment walk of `resolvePath`. -/
def walkPath : LocData → List (List Char) → Option LocData
  | cur, [] => some cur
  | cur, p :: ps =>
    match getProp cur p with
    | some nxt => walkPath nxt ps
    | none => none

/-- Model of `resolvePath(object, path)` from `src/utils/foundryParser.ts`:
split the path on dots, walk the object, and accept only string or numeric
terminal values (a number is rendered in decimal). -/
def resolvePath (d : LocData) (path : List Char) : Option (List Char) :=
  if jsFalsy d then none
  else
    match walkPath d (List.splitOn '.' path) with
    | some (.str s) => some s
    | some (.num n) => some (toString n).data
    | _ => none

/-!  Placeholder replacement inside `localize`:
`translation.replace(new RegExp('{'+k+'}','g'), String(v))`, modelled as a
literal global replacement.  The model coincides with the source exactly
when the name `k` contains only characters the `RegExp` constructor treats
literally (none of the metacharacters listed in `regexPlain`) and the
stringified value contains no `$` (no replacement patterns); the
substitution claim assumes precisely this regime as a hypothesis, and the
repository's own dictionaries use plain alphanumeric names.  The scanner
carries a skip counter so that the recursion is structural: after a match
the pattern's remaining characters are consumed one at a time. -/

/-- Worker for the global literal replacement.  `skip > 0` means the scanner
is still consuming characters that belong to the previous match. -/
def replGo (p r : List Char) : Nat → List Char → List Char
  | _ + 1, [] => []
  | skip + 1, _ :: s => replGo p r skip s
  | 0, [] => []
  | 0, c :: s =>
    if p.isPrefixOf (c :: s) then r ++ replGo p r (p.length - 1) s
    else c :: replGo p r 0 s

/-- Model of `translation.replace(pattern, r)` with the `g` flag and a
non-empty literal `pattern`. -/
def replaceList (p r s : List Char) : List Char := replGo p r 0 s

/-- Model of `localize(localizationData, key, replacements)` from
`src/utils/foundryParser.ts`.  With no dictionary, the fallback is the
capitalized last dot-segment of the key (or the key itself when it has no
dot).  With a dictionary, a falsy resolution result (absent key, or an empty
string value) yields the key itself; otherwise every replacement pair is
applied in order by a global literal replacement of the brace-wrapped name. -/
def localize (locData : Option LocData) (key : List Char)
    (repl : List (List Char × List Char)) : List Char :=
  match locData with
  | none => if key.contains '.' then capitalizeList (lastSeg key) else key
  | some d =>
    match resolvePath d key with
    | none => key
    | some t =>
      if t = [] then key
      else repl.foldl (fun acc kv => replaceList (lbrace :: kv.1 ++ [rbrace]) kv.2 acc) t

/-- Model of `slugToPascalCase`: split on hyphens and capitalize each part. -/
def slugToPascalCase (slug : List Char) : List Char :=
  ((List.splitOn '-' slug).map capitalizeList).flatten

/-!  Model of `description.replace(/<[^>]*>/g, '')` (strip HTML tags) and of
`description.replace(/"/g, '&quot;')` from the Trait rule.  The tag stripper
is a single-pass state machine: outside a tag, characters are copied; from a
`<` on, characters are buffered until a `>` closes the tag (the whole tag is
then dropped); a buffer still open at the end of the string is emitted
literally, which coincides with the regex semantics because an unterminated
`<...` run contains no `>` and therefore no later match can start inside it. -/

/-- Worker of the tag stripper.  `buf` is `some` (reversed buffered
characters, starting with the pending `<`) while inside a candidate tag. -/
def stripTagsGo : Option (List Char) → List Char → List Char
  | none, [] => []
  | none, c :: s => if c = '<' then stripTagsGo (some [c]) s else c :: stripTagsGo none s
  | some buf, [] => buf.reverse
  | some buf, c :: s => if c = '>' then stripTagsGo none s else stripTagsGo (some (c :: buf)) s

/-- Model of the global replacement `/<[^>]*>/g` by the empty string. -/
def stripTags (s : List Char) : List Char := stripTagsGo none s

/-- Model of the global replacement of `"` by `&quot;`. -/
def escapeQuotes : List Char → List Char
  | [] => []
  | c :: s => if c = '"' then lc "&quot;" ++ escapeQuotes s else c :: escapeQuotes s

/-!  The generic scanning engine used to model each rewrite stage. -/

/-- Consume a literal regex fragment: succeed with the remainder exactly when
`l` is a prefix of `s`. -/
def stripLit (l s : List Char) : Option (List Char) :=
  if l.isPrefixOf s then some (s.drop l.length) else none

/-- Backtracking model of a lazy group `(.*?)` followed by a continuation
`k`: the continuation is tried at the current position first and the group is
grown one (dot-class) character at a time, exactly like the regex engine's
exploration order for a lazy quantifier. -/
def lazyFind {α : Type} (k : List Char → Option α) : List Char → Option (List Char × α)
  | [] => (k []).map (fun r => ([], r))
  | c :: s =>
    match k (c :: s) with
    | some r => some ([], r)
    | none => if isDot c then (lazyFind k s).map (fun g => (c :: g.1, g.2)) else none

/-- Driver of a global rewrite `s.replace(re, fn)`.  The matcher `m` returns
the replacement text together with the unconsumed remainder of the string.
The skip counter consumes, one character at a time, the characters that
belong to the previous match, making the recursion structural; every matcher
in this development starts with a non-empty literal, so a match always
consumes at least one character. -/
def rwScan (m : List Char → Option (List Char × List Char)) : Nat → List Char → List Char
  | _ + 1, [] => []
  | skip + 1, _ :: s => rwScan m skip s
  | 0, [] => []
  | 0, c :: s =>
    match m (c :: s) with
    | some (rep, rest) => rep ++ rwScan m (s.length - rest.length) s
    | none => c :: rwScan m 0 s

/-- Variant of `rwScan` whose replacement may fail (used by the Localize
stage, whose replacement recursively runs the whole transformer under a
recursion budget): a failed replacement aborts the whole scan. -/
def rwScanO (m : List Char → Option (Option (List Char) × List Char)) :
    Nat → List Char → Option (List Char)
  | _ + 1, [] => some []
  | skip + 1, _ :: s => rwScanO m skip s
  | 0, [] => some []
  | 0, c :: s =>
    match m (c :: s) with
    | some (rep?, rest) =>
      match rep? with
      | none => none
      | some rep => (rwScanO m (s.length - rest.length) s).map (fun t => rep ++ t)
    | none => (rwScanO m 0 s).map (fun t => c :: t)

/-!  Matchers for the individual regular-expression rules of
`processFoundryTags`, in source order. -/

/-- Matcher of `/@Localize\[(.*?)\]/`: returns the captured key and the
remainder. -/
def matchLocalize (s : List Char) : Option (List Char × List Char) :=
  match stripLit (lc "@Localize[") s with
  | none => none
  | some s1 => lazyFind (fun t => stripLit (lc "]") t) s1

/-- Replacement of the Localize rule: trim the key, resolve it, and on
success expand the resolved text with `expand` (the recursive call to the
whole transformer); on failure produce the bold-wrapped trimmed key. -/
def locMatcher (d : LocData) (expand : List Char → Option (List Char))
    (s : List Char) : Option (Option (List Char) × List Char) :=
  (matchLocalize s).map (fun g =>
    let tk := jsTrim g.1
    (match resolvePath d tk with
     | some t => expand t
     | none => some (strongWrap tk), g.2))

/-- Matcher of `/@Compendium\[.*?\]\{(.*?)\}/`, replaced by the link text
alone. -/
def compendiumMatcher (s : List Char) : Option (List Char × List Char) :=
  match stripLit (lc "@Compendium[") s with
  | none => none
  | some s1 =>
    match lazyFind (fun t =>
        match stripLit rbLb t with
        | none => none
        | some t1 => lazyFind (fun u => stripLit [rbrace] u) t1) s1 with
    | none => none
    | some g => some (g.2.1, g.2.2)

/-- Clickable page link emitted by the journal-page rule. -/
def pageAnchor (pid txt : List Char) : List Char :=
  lc "<a href=\"#\" class=\"internal-journal-link\" data-page-id=\"" ++ pid ++
    lc "\">" ++ txt ++ lc "</a>"

/-- Matcher of
`/@UUID\[JournalEntry\..*?\.JournalEntryPage\.(.*?)\]\{(.*?)\}/`: a page id
contained in the current page-id set becomes a clickable link, any other page
id becomes bold link text. -/
def uuidJournalMatcher (pageIds : List (List Char)) (s : List Char) :
    Option (List Char × List Char) :=
  match stripLit (lc "@UUID[JournalEntry.") s with
  | none => none
  | some s1 =>
    match lazyFind (fun t =>
        match stripLit (lc ".JournalEntryPage.") t with
        | none => none
        | some t1 =>
          lazyFind (fun u =>
              match stripLit rbLb u with
              | none => none
              | some u1 => lazyFind (fun v => stripLit [rbrace] v) u1) t1) s1 with
    | none => none
    | some g =>
      let pid := g.2.1
      let txt := g.2.2.1
      some (if pageIds.contains pid then pageAnchor pid txt else strongWrap txt, g.2.2.2)

/-- Clickable actor link emitted by the actor rule. -/
def actorAnchor (txt : List Char) : List Char :=
  lc "<a href=\"#\" class=\"internal-journal-link\" data-actor-name=\"" ++ txt ++
    lc "\">" ++ txt ++ lc "</a>"

/-- Matcher of `/@UUID\[Actor\..*?\]\{(.*?)\}/`. -/
def uuidActorMatcher (s : List Char) : Option (List Char × List Char) :=
  match stripLit (lc "@UUID[Actor.") s with
  | none => none
  | some s1 =>
    match lazyFind (fun t =>
        match stripLit rbLb t with
        | none => none
        | some t1 => lazyFind (fun u => stripLit [rbrace] u) t1) s1 with
    | none => none
    | some g => some (actorAnchor g.2.1, g.2.2)

/-- Clickable item link emitted by the item rule. -/
def itemAnchor (txt : List Char) : List Char :=
  lc "<a href=\"#\" class=\"internal-journal-link\" data-item-name=\"" ++ txt ++
    lc "\">" ++ txt ++ lc "</a>"

/-- Matcher of `/@UUID\[.*?\.Item\..*?\]\{(.*?)\}/`. -/
def uuidItemMatcher (s : List Char) : Option (List Char × List Char) :=
  match stripLit (lc "@UUID[") s with
  | none => none
  | some s1 =>
    match lazyFind (fun t =>
        match stripLit (lc ".Item.") t with
        | none => none
        | some t1 =>
          lazyFind (fun u =>
              match stripLit rbLb u with
              | none => none
              | some u1 => lazyFind (fun v => stripLit [rbrace] v) u1) t1) s1 with
    | none => none
    | some g => some (itemAnchor g.2.2.1, g.2.2.2)

/-- Matcher of the generic rule `/@UUID\[.*?\]\{(.*?)\}/` (bold label). -/
def uuidGenericMatcher (s : List Char) : Option (List Char × List Char) :=
  match stripLit (lc "@UUID[") s with
  | none => none
  | some s1 =>
    match lazyFind (fun t =>
        match stripLit rbLb t with
        | none => none
        | some t1 => lazyFind (fun u => stripLit [rbrace] u) t1) s1 with
    | none => none
    | some g => some (strongWrap g.2.1, g.2.2)

/-- Matcher of `/@Condition\[.*?\]\{(.*?)\}/` (emphasised label). -/
def conditionMatcher (s : List Char) : Option (List Char × List Char) :=
  match stripLit (lc "@Condition[") s with
  | none => none
  | some s1 =>
    match lazyFind (fun t =>
        match stripLit rbLb t with
        | none => none
        | some t1 => lazyFind (fun u => stripLit [rbrace] u) t1) s1 with
    | none => none
    | some g => some (emWrap g.2.1, g.2.2)

/-!  The Trait rule `/@Traits?\[([^\]]*)\](?:\{(.*?)\})?/`. -/

/-- Model of the greedy character class `[^\]]*` followed by `\]`: split off
the longest run of characters other than `]`; fail when the string has no
`]` at all. -/
def splitAtRB : List Char → Option (List Char × List Char)
  | [] => none
  | c :: s =>
    if c = ']' then some ([], s)
    else (splitAtRB s).map (fun g => (c :: g.1, g.2))

/-- Replacement of the Trait rule.  The display label is the explicit label
when the optional group matched, otherwise the `localize` result for the
`PF2E.Trait<PascalSlug>` key (`localize` always returns a string, so the
source's final `?? pascalKey` alternative is unreachable).  The tooltip text
is the resolved description (`(localizationData && resolvePath(...)) || ''`,
so an empty or missing description yields the empty string) with HTML tags
stripped and quotes escaped. -/
def traitDescription (locData : Option LocData) (pascalKey : List Char) : List Char :=
  match locData with
  | some d =>
    match resolvePath d (lc "PF2E.TraitDescription" ++ pascalKey) with
    | some t => if t = [] then [] else t
    | none => []
  | none => []

/-- Replacement of the Trait rule (the span emitted for one directive). -/
def traitReplace (locData : Option LocData) (key : List Char)
    (label : Option (List Char)) : List Char :=
  let pascalKey := slugToPascalCase key
  let displayLabel :=
    match label with
    | some l => l
    | none => localize locData (lc "PF2E.Trait" ++ pascalKey) []
  let sanitized := escapeQuotes (stripTags (traitDescription locData pascalKey))
  lc "<span class=\"trait-tooltip\" title=\"" ++ sanitized ++
    lc "\"><code class=\"trait-code\">" ++ displayLabel ++ lc "</code></span>"

/-- Matcher of the Trait rule: `@Trait` with an optional `s`, the bracketed
slug, and an optional immediately following brace-delimited label (the label
group `(.*?)` is dot-class and lazy; when it cannot complete, the optional
group as a whole matches nothing and the brace is left in the remainder). -/
def traitMatcher (locData : Option LocData) (s : List Char) :
    Option (List Char × List Char) :=
  match stripLit (lc "@Trait") s with
  | none => none
  | some s1 =>
    let afterBr : Option (List Char) :=
      match s1 with
      | '[' :: r => some r
      | 's' :: '[' :: r => some r
      | _ => none
    match afterBr with
    | none => none
    | some r =>
      match splitAtRB r with
      | none => none
      | some g =>
        let key := g.1
        let lab :=
          match g.2 with
          | c :: r3 =>
            if c = lbrace then
              match lazyFind (fun v => stripLit [rbrace] v) r3 with
              | some lg => (some lg.1, lg.2)
              | none => (none, g.2)
            else (none, g.2)
          | [] => (none, g.2)
        some (traitReplace locData key lab.1, lab.2)

/-!  The hand-rolled bracket-depth scanner of the source
(`parseAndReplace`), used by the Damage and Check rules. -/

/-- Model of the bracket-depth loop of `parseAndReplace`: starting at depth
`lvl` (the source starts at 1, just after the opening bracket), return the
content up to the bracket that brings the depth back to zero, and the
remainder after that bracket; fail when the string ends first. -/
def scanContent : List Char → Nat → Option (List Char × List Char)
  | [], _ => none
  | c :: s, lvl =>
    if c = '[' then (scanContent s (lvl + 1)).map (fun g => (c :: g.1, g.2))
    else if c = ']' then
      if lvl = 1 then some ([], s)
      else (scanContent s (lvl - 1)).map (fun g => (c :: g.1, g.2))
    else (scanContent s lvl).map (fun g => (c :: g.1, g.2))

/-- Model of the brace-depth loop that parses the optional label of
`parseAndReplace` (depth starts at 1 just after the opening brace). -/
def scanBrace : List Char → Nat → Option (List Char × List Char)
  | [], _ => none
  | c :: s, lvl =>
    if c = lbrace then (scanBrace s (lvl + 1)).map (fun g => (c :: g.1, g.2))
    else if c = rbrace then
      if lvl = 1 then some ([], s)
      else (scanBrace s (lvl - 1)).map (fun g => (c :: g.1, g.2))
    else (scanBrace s lvl).map (fun g => (c :: g.1, g.2))

/-- Model of the optional-label step of `parseAndReplace`: the text after the
closing bracket, once trimmed, must start with a brace (so only whitespace
may precede it, and that whitespace is skipped, not emitted); the label ends
at the brace that closes the depth-counted braces.  Returns `none` (no label,
nothing consumed) when there is no brace or the braces never close. -/
def tryLabel (s : List Char) : Option (List Char × List Char) :=
  match s.dropWhile isJsWs with
  | c :: r => if c = lbrace then scanBrace r 1 else none
  | [] => none

/-- Matcher corresponding to one iteration of the `parseAndReplace` loop for
the tag prefix `tagPat` (such as `@Damage[`): on an unterminated bracket the
prefix itself is emitted verbatim and scanning resumes immediately after it;
otherwise the transformer `tr` is applied to the content and the optional
label. -/
def tagMatcher (tagPat : List Char)
    (tr : List Char → Option (List Char) → List Char) (s : List Char) :
    Option (List Char × List Char) :=
  match stripLit tagPat s with
  | none => none
  | some s1 =>
    match scanContent s1 1 with
    | none => some (tagPat, s1)
    | some g =>
      match tryLabel g.2 with
      | some lg => some (tr g.1 (some lg.1), lg.2)
      | none => some (tr g.1 none, g.2)

/-- Model of the whole `parseAndReplace(text, tag, transformer)` helper. -/
def parseAndReplace (tagPat : List Char)
    (tr : List Char → Option (List Char) → List Char) (s : List Char) : List Char :=
  rwScan (tagMatcher tagPat tr) 0 s

/-- Replacement of the Damage rule: the raw content, bold-wrapped. -/
def damageTr (c : List Char) (_label : Option (List Char)) : List Char :=
  strongWrap c

/-!  The Check rule. -/

/-- The three saving-throw names used by the bare-token heuristic. -/
def saveNames : List (List Char) := [lc "reflex", lc "fortitude", lc "will"]

/-- Lookup in the accumulated `checkValues` record (latest assignment wins,
modelling JavaScript object property assignment). -/
def getKV (m : List (List Char × List Char)) (k : List Char) : Option (List Char) :=
  (m.find? (fun p => p.1 == k)).map (fun p => p.2)

/-- JavaScript truthiness of a looked-up record field: absent and empty
string are falsy. -/
def truthyS : Option (List Char) → Bool
  | none => false
  | some [] => false
  | some (_ :: _) => true

/-- Model of `!isNaN(parseInt(t))` for an already trimmed `t`: an optional
sign followed by a leading digit. -/
def jsParseIntOk (t : List Char) : Bool :=
  match t with
  | '+' :: c :: _ => c.isDigit
  | '-' :: c :: _ => c.isDigit
  | c :: _ => c.isDigit
  | [] => false

/-- Model of the token-parsing loop of the Check rule: split the content on
`|`; a token with a colon is a key:value assignment (`split(':', 2)` keeps
only the first two segments); a bare token that names a saving throw becomes
the `type` if that is still falsy, else a bare integer-looking token becomes
the `dc` if that is still falsy. -/
def parseCheckValues (c : List Char) : List (List Char × List Char) :=
  (List.splitOn '|' c).foldl (fun m part =>
    if part.contains ':' then
      match List.splitOn ':' part with
      | k :: v :: _ => (jsTrim k, jsTrim v) :: m
      | _ => m
    else
      let t := toLowerList (jsTrim part)
      if saveNames.contains t && !truthyS (getKV m (lc "type")) then (lc "type", t) :: m
      else if jsParseIntOk t && !truthyS (getKV m (lc "dc")) then (lc "dc", t) :: m
      else m) []

/-- Replacement of the Check rule: with a truthy `type` and `dc`, the
normalized compact label (optional `Basic_` prefix, capitalized type,
`_DC<dc>`), bold-wrapped; otherwise the explicit label if truthy, else the
raw content, bold-wrapped. -/
def checkTr (c : List Char) (label : Option (List Char)) : List Char :=
  let m := parseCheckValues c
  let type? := getKV m (lc "type")
  let dc? := getKV m (lc "dc")
  if truthyS type? && truthyS dc? then
    let basicPart := if getKV m (lc "basic") == some (lc "true") then lc "Basic_" else ([] : List Char)
    strongWrap (basicPart ++ capitalizeList (type?.getD []) ++ lc "_DC" ++ dc?.getD [])
  else
    strongWrap
      (match label with
       | some l => if l = [] then c else l
       | none => c)

/-- Model of `processFoundryTags(content, pageIds, localizationData)` from
`src/utils/foundryParser.ts`.  `depth` is the recursion budget for the
Localize stage's recursive self-call (the source has no such budget and can
recurse forever; `none` means the budget was exhausted).  The stages run in
source order, each over the entire current string. -/
def processFoundryTags : Nat → List Char → List (List Char) → Option LocData →
    Option (List Char)
  | 0, _, _, _ => none
  | depth + 1, content, pageIds, locData =>
    if content = [] then some []
    else
      let step1 :=
        match locData with
        | none => some content
        | some d =>
          rwScanO (locMatcher d (fun t => processFoundryTags depth t pageIds locData))
            0 content
      match step1 with
      | none => none
      | some r1 =>
        let r2 := rwScan compendiumMatcher 0 r1
        let r3 := rwScan (uuidJournalMatcher pageIds) 0 r2
        let r4 := rwScan uuidActorMatcher 0 r3
        let r5 := rwScan uuidItemMatcher 0 r4
        let r6 := rwScan uuidGenericMatcher 0 r5
        let r7 := rwScan (traitMatcher locData) 0 r6
        let r8 := rwScan conditionMatcher 0 r7
        let r9 := parseAndReplace (lc "@Damage[") damageTr r8
        let r10 := parseAndReplace (lc "@Check[") checkTr r9
        some r10

/-- Modelled from the spec: one journal of the cross-journal graph, its id
together with the ids of its pages. -/
structure JournalRef where
  jid : List Char
  pids : List (List Char)

/-- Modelled from the spec: the extended resolution context, the current
journal's page ids plus the cross-journal graph (the other journals with
their pages and the current journal's own id). -/
structure CrossCtx where
  pageIds : List (List Char)
  journals : List JournalRef
  currentJournalId : Option (List Char)

/-- Modelled from the spec: the clickable cross-journal marker, an
anchor-like element with the fixed internal-link CSS class carrying the
target journal id and the target page id as data attributes. -/
def crossAnchor (jid pid txt : List Char) : List Char :=
  lc "<a href=\"#\" class=\"internal-journal-link\" data-journal-foundry-id=\"" ++ jid ++
    lc "\" data-page-foundry-id=\"" ++ pid ++ lc "\">" ++ txt ++ lc "</a>"

/-- Modelled from the spec: the journal-page rule of the context-aware
transformer.  It matches the same directive shape as `uuidJournalMatcher`,
but a reference that names another journal's page explicitly (the journal
appears in the graph with that page and is not the current journal) takes
priority and becomes a cross-journal marker; otherwise the current-journal
sub-case applies unchanged. -/
def uuidJournalMatcherCtx (ctx : CrossCtx) (s : List Char) :
    Option (List Char × List Char) :=
  match stripLit (lc "@UUID[JournalEntry.") s with
  | none => none
  | some s1 =>
    match lazyFind (fun t =>
        match stripLit (lc ".JournalEntryPage.") t with
        | none => none
        | some t1 =>
          lazyFind (fun u =>
              match stripLit rbLb u with
              | none => none
              | some u1 => lazyFind (fun v => stripLit [rbrace] v) u1) t1) s1 with
    | none => none
    | some g =>
      let jid := g.1
      let pid := g.2.1
      let txt := g.2.2.1
      some
        (if ctx.journals.any (fun j => j.jid == jid && j.pids.contains pid)
            && (ctx.currentJournalId != some jid) then crossAnchor jid pid txt
         else if ctx.pageIds.contains pid then pageAnchor pid txt
         else strongWrap txt, g.2.2.2)

/-- Modelled from the spec: the context-aware transformer variant.  It runs
the same stage pipeline as `processFoundryTags`, with the journal-page stage
replaced by the two-tier rule `uuidJournalMatcherCtx`. -/
def processFoundryTagsCtx : Nat → List Char → CrossCtx → Option LocData →
    Option (List Char)
  | 0, _, _, _ => none
  | depth + 1, content, ctx, locData =>
    if content = [] then some []
    else
      let step1 :=
        match locData with
        | none => some content
        | some d =>
          rwScanO (locMatcher d (fun t => processFoundryTagsCtx depth t ctx locData))
            0 content
      match step1 with
      | none => none
      | some r1 =>
        let r2 := rwScan compendiumMatcher 0 r1
        let r3 := rwScan (uuidJournalMatcherCtx ctx) 0 r2
        let r4 := rwScan uuidActorMatcher 0 r3
        let r5 := rwScan uuidItemMatcher 0 r4
        let r6 := rwScan uuidGenericMatcher 0 r5
        let r7 := rwScan (traitMatcher locData) 0 r6
        let r8 := rwScan conditionMatcher 0 r7
        let r9 := parseAndReplace (lc "@Damage[") damageTr r8
        let r10 := parseAndReplace (lc "@Check[") checkTr r9
        some r10

/-!  Representation used to settle the placeholder-substitution claim: a
brace-structured string is a brace-free text chunk followed by
placeholder/text pairs, and `substOne` performs one placeholder's
substitution directly on that representation. -/


def BraceFree (s : List Char) : Prop := lbrace ∉ s ∧ rbrace ∉ s

instance braceFreeDec (s : List Char) : Decidable (BraceFree s) := by
  unfold BraceFree; infer_instance

/-- Unfolding lemma for `List.isPrefixOf` on two cons cells. -/
theorem isPrefixOf_cons₂ (a b : Char) (p t : List Char) :
    (a :: p).isPrefixOf (b :: t) = ((a == b) && p.isPrefixOf t) := rfl

/-- A non-empty pattern is no prefix of the empty string. -/
theorem isPrefixOf_nil (a : Char) (p : List Char) :
    (a :: p).isPrefixOf ([] : List Char) = false := rfl

/-- The empty pattern is a prefix of everything. -/
theorem isPrefixOf_nil_left (t : List Char) : ([] : List Char).isPrefixOf t = true := by
  cases t <;> rfl

/-- A pattern headed by a different character is not a prefix. -/
theorem not_isPrefixOf_of_head_ne {a b : Char} (p t : List Char) (h : a ≠ b) :
    (a :: p).isPrefixOf (b :: t) = false := by
  simp [isPrefixOf_cons₂, h]

/-- Whether a short pattern is a prefix of an appended string only depends on
the first part when the pattern is at most as long. -/
theorem isPrefixOf_append_of_le (p q xs : List Char) (h : p.length ≤ q.length) :
    p.isPrefixOf (q ++ xs) = p.isPrefixOf q := by
  induction p generalizing q with
  | nil => simp [isPrefixOf_nil_left]
  | cons a p ih =>
    cases q with
    | nil => simp at h
    | cons b q =>
      simp only [List.cons_append, isPrefixOf_cons₂]
      rw [ih q (by simpa using h)]

/-- A literal strips itself from the front of an appended string. -/
theorem stripLit_append (l s : List Char) : stripLit l (l ++ s) = some s := by
  unfold stripLit
  rw [if_pos]
  · simp
  · induction l with
    | nil => simp [isPrefixOf_nil_left]
    | cons a l ih => simp [isPrefixOf_cons₂, ih]

/-- A failed prefix test makes `stripLit` fail. -/
theorem stripLit_none {l t : List Char} (h : l.isPrefixOf t = false) :
    stripLit l t = none := by
  simp [stripLit, h]

/-- Membership transfers along a suffix. -/
theorem mem_of_suffix {t s : List Char} {c : Char} (h : t <:+ s) (hc : c ∈ t) : c ∈ s :=
  h.subset hc

/-- A suffix of the tail is a suffix of the whole list. -/
theorem suffix_cons_weaken {t s : List Char} (c : Char) (h : t <:+ s) : t <:+ c :: s := by
  obtain ⟨u, hu⟩ := h
  exact ⟨c :: u, by simp [hu]⟩

/-- Absence of any hit of the matcher `m` at every suffix position of `s`. -/
def NoHit {α : Type} (m : List Char → Option α) (s : List Char) : Prop :=
  ∀ t, t <:+ s → m t = none

/-- A scan with a matcher that hits nowhere is the identity. -/
theorem rwScan_id (m : List Char → Option (List Char × List Char)) (s : List Char)
    (h : NoHit m s) : rwScan m 0 s = s := by
  induction s with
  | nil => rfl
  | cons c s ih =>
    have hc : m (c :: s) = none := h (c :: s) (List.suffix_refl _)
    simp only [rwScan, hc]
    rw [ih (fun t ht => h t (suffix_cons_weaken c ht))]

/-- A fallible scan with a matcher that hits nowhere returns the string. -/
theorem rwScanO_id (m : List Char → Option (Option (List Char) × List Char)) (s : List Char)
    (h : NoHit m s) : rwScanO m 0 s = some s := by
  induction s with
  | nil => rfl
  | cons c s ih =>
    have hc : m (c :: s) = none := h (c :: s) (List.suffix_refl _)
    simp only [rwScanO, hc]
    rw [ih (fun t ht => h t (suffix_cons_weaken c ht))]
    rfl

/-- The skip counter consumes exactly the given number of characters. -/
theorem rwScan_skip (m : List Char → Option (List Char × List Char)) (a b : List Char) :
    rwScan m a.length (a ++ b) = rwScan m 0 b := by
  induction a with
  | nil => rfl
  | cons c a ih => simpa [rwScan] using ih

/-- The skip counter of the fallible scan consumes exactly the given number
of characters. -/
theorem rwScanO_skip (m : List Char → Option (Option (List Char) × List Char))
    (a b : List Char) : rwScanO m a.length (a ++ b) = rwScanO m 0 b := by
  induction a with
  | nil => rfl
  | cons c a ih => simpa [rwScanO] using ih

/-- A hit at the head of the string: the replacement is emitted and the scan
resumes at the remainder. -/
theorem rwScan_hit (m : List Char → Option (List Char × List Char))
    (c : Char) (s' mid rest rep : List Char)
    (hm : m (c :: s') = some (rep, rest)) (hsplit : s' = mid ++ rest) :
    rwScan m 0 (c :: s') = rep ++ rwScan m 0 rest := by
  simp only [rwScan, hm]
  have hlen : s'.length - rest.length = mid.length := by
    subst hsplit; simp [List.length_append]
  rw [hlen, hsplit, rwScan_skip]

/-- A hit at the head of the string for the fallible scan, successful
replacement case. -/
theorem rwScanO_hit (m : List Char → Option (Option (List Char) × List Char))
    (c : Char) (s' mid rest rep : List Char)
    (hm : m (c :: s') = some (some rep, rest)) (hsplit : s' = mid ++ rest) :
    rwScanO m 0 (c :: s') = (rwScanO m 0 rest).map (fun t => rep ++ t) := by
  simp only [rwScanO, hm]
  have hlen : s'.length - rest.length = mid.length := by
    subst hsplit; simp [List.length_append]
  rw [hlen, hsplit, rwScanO_skip]

/-- A hit at the head whose replacement failed aborts the fallible scan. -/
theorem rwScanO_hit_none (m : List Char → Option (Option (List Char) × List Char))
    (c : Char) (s' rest : List Char)
    (hm : m (c :: s') = some (none, rest)) :
    rwScanO m 0 (c :: s') = none := by
  simp only [rwScanO, hm]

/-- The backtracking group finder takes the group up to the first position
where the continuation succeeds. -/
theorem lazyFind_found {α : Type} (k : List Char → Option α) (x t : List Char) (r : α)
    (hdot : ∀ c ∈ x, isDot c = true)
    (hfail : ∀ x₂, x₂ <:+ x → x₂ ≠ [] → k (x₂ ++ t) = none)
    (hk : k t = some r) :
    lazyFind k (x ++ t) = some (x, r) := by
  induction x with
  | nil =>
    cases t with
    | nil => simp [lazyFind, hk]
    | cons c t' => simp [lazyFind, hk]
  | cons a x ih =>
    have hka : k (a :: (x ++ t)) = none := by
      simpa using hfail (a :: x) (List.suffix_refl _) (by simp)
    have ihx := ih (fun c hc => hdot c (by simp [hc]))
      (fun x₂ hx₂ hne => hfail x₂ (suffix_cons_weaken a hx₂) hne)
    simp only [List.cons_append, lazyFind, List.append_eq, hka, ihx]
    rw [if_pos (hdot a (by simp))]
    rfl

/-- If the suffix of an at-most-once-marked string starts with the marker
character, it is exactly the part from the marker on. -/
theorem suffix_eq_of_at_head {x r t' : List Char} (hx : '@' ∉ x) (hr : '@' ∉ r)
    (ht : ('@' :: t') <:+ x ++ '@' :: r) : t' = r := by
  induction x with
  | nil =>
    rcases ht with ⟨u, hu⟩
    cases u with
    | nil => simpa using hu
    | cons b u' =>
      exfalso
      apply hr
      simp only [List.cons_append, List.nil_append, List.cons.injEq] at hu
      rw [← hu.2]
      simp
  | cons a x ih =>
    rcases ht with ⟨u, hu⟩
    cases u with
    | nil =>
      exfalso
      apply hx
      simp only [List.nil_append, List.cons_append, List.cons.injEq] at hu
      rw [hu.1]
      simp
    | cons b u' =>
      simp only [List.cons_append, List.cons.injEq] at hu
      exact ih (fun hm => hx (List.mem_cons_of_mem a hm)) ⟨u', hu.2⟩

/-- A matcher whose trigger pattern starts with `@` hits nowhere in a string
without `@`. -/
theorem noHit_of_no_at {α : Type} (m : List Char → Option α) (p' : List Char)
    (hm : ∀ t, ('@' :: p').isPrefixOf t = false → m t = none)
    (s : List Char) (h : '@' ∉ s) : NoHit m s := by
  intro t ht
  apply hm
  cases t with
  | nil => exact isPrefixOf_nil _ _
  | cons c t' =>
    have hc : c ∈ s := mem_of_suffix ht (by simp)
    exact not_isPrefixOf_of_head_ne _ _ (fun he => h (he ▸ hc))

/-- A matcher whose trigger pattern starts with `@` hits nowhere in a string
with a single `@`, provided it misses at that position. -/
theorem noHit_single_at {α : Type} (m : List Char → Option α) (p' : List Char)
    (hm : ∀ t, ('@' :: p').isPrefixOf t = false → m t = none)
    (x r : List Char) (hx : '@' ∉ x) (hr : '@' ∉ r)
    (hmiss : m ('@' :: r) = none) : NoHit m (x ++ '@' :: r) := by
  intro t ht
  cases t with
  | nil => exact hm [] (isPrefixOf_nil _ _)
  | cons c t' =>
    by_cases hc : c = '@'
    · subst hc
      rw [suffix_eq_of_at_head hx hr ht]
      exact hmiss
    · exact hm _ (not_isPrefixOf_of_head_ne _ _ (fun he => hc he.symm))

/-!  Trigger lemmas: each stage matcher returns `none` wherever its leading
literal does not match. -/

/-- Trigger of the Localize matcher. -/
theorem locMatcher_trigger (d : LocData) (e : List Char → Option (List Char)) (t : List Char)
    (h : (lc "@Localize[").isPrefixOf t = false) : locMatcher d e t = none := by
  simp [locMatcher, matchLocalize, stripLit_none h]

/-- Trigger of the Compendium matcher. -/
theorem compendiumMatcher_trigger (t : List Char)
    (h : (lc "@Compendium[").isPrefixOf t = false) : compendiumMatcher t = none := by
  simp [compendiumMatcher, stripLit_none h]

/-- Trigger of the journal-page matcher. -/
theorem uuidJournalMatcher_trigger (pids : List (List Char)) (t : List Char)
    (h : (lc "@UUID[JournalEntry.").isPrefixOf t = false) :
    uuidJournalMatcher pids t = none := by
  simp [uuidJournalMatcher, stripLit_none h]

/-- Trigger of the actor matcher. -/
theorem uuidActorMatcher_trigger (t : List Char)
    (h : (lc "@UUID[Actor.").isPrefixOf t = false) : uuidActorMatcher t = none := by
  simp [uuidActorMatcher, stripLit_none h]

/-- Trigger of the item matcher. -/
theorem uuidItemMatcher_trigger (t : List Char)
    (h : (lc "@UUID[").isPrefixOf t = false) : uuidItemMatcher t = none := by
  simp [uuidItemMatcher, stripLit_none h]

/-- Trigger of the generic UUID matcher. -/
theorem uuidGenericMatcher_trigger (t : List Char)
    (h : (lc "@UUID[").isPrefixOf t = false) : uuidGenericMatcher t = none := by
  simp [uuidGenericMatcher, stripLit_none h]

/-- Trigger of the Trait matcher. -/
theorem traitMatcher_trigger (locData : Option LocData) (t : List Char)
    (h : (lc "@Trait").isPrefixOf t = false) : traitMatcher locData t = none := by
  simp [traitMatcher, stripLit_none h]

/-- Trigger of the Condition matcher. -/
theorem conditionMatcher_trigger (t : List Char)
    (h : (lc "@Condition[").isPrefixOf t = false) : conditionMatcher t = none := by
  simp [conditionMatcher, stripLit_none h]

/-- Trigger of the bracket-depth matcher. -/
theorem tagMatcher_trigger (tagPat : List Char)
    (tr : List Char → Option (List Char) → List Char) (t : List Char)
    (h : tagPat.isPrefixOf t = false) : tagMatcher tagPat tr t = none := by
  simp [tagMatcher, stripLit_none h]

/-- A scan distributes over an append whose first part contains no hit
position. -/
theorem rwScan_append (m : List Char → Option (List Char × List Char)) (a b : List Char)
    (hmiss : ∀ a', a' <:+ a → a' ≠ [] → m (a' ++ b) = none) :
    rwScan m 0 (a ++ b) = a ++ rwScan m 0 b := by
  induction a with
  | nil => rfl
  | cons c a ih =>
    have hc : m (c :: (a ++ b)) = none := by
      simpa using hmiss (c :: a) (List.suffix_refl _) (by simp)
    simp only [List.cons_append, rwScan, List.append_eq, hc]
    rw [ih (fun a' ha' hne => hmiss a' (suffix_cons_weaken c ha') hne)]

/-- The fallible scan distributes over an append whose first part contains
no hit position. -/
theorem rwScanO_append (m : List Char → Option (Option (List Char) × List Char))
    (a b : List Char)
    (hmiss : ∀ a', a' <:+ a → a' ≠ [] → m (a' ++ b) = none) :
    rwScanO m 0 (a ++ b) = (rwScanO m 0 b).map (fun t => a ++ t) := by
  induction a with
  | nil => cases h : rwScanO m 0 b <;> simp [h]
  | cons c a ih =>
    have hc : m (c :: (a ++ b)) = none := by
      simpa using hmiss (c :: a) (List.suffix_refl _) (by simp)
    simp only [List.cons_append, rwScanO, List.append_eq, hc]
    rw [ih (fun a' ha' hne => hmiss a' (suffix_cons_weaken c ha') hne)]
    cases rwScanO m 0 b <;> rfl

/-- The inner label group: the first `rbrace` closes it. -/
theorem innerRb_found (z t : List Char)
    (hz : ∀ c ∈ z, c ≠ rbrace ∧ isDot c = true) :
    lazyFind (fun v => stripLit [rbrace] v) (z ++ [rbrace] ++ t) = some (z, t) := by
  have : lazyFind (fun v => stripLit [rbrace] v) (z ++ ([rbrace] ++ t)) = some (z, t) := by
    apply lazyFind_found
    · exact fun c hc => (hz c hc).2
    · intro x₂ hx₂ hne
      cases x₂ with
      | nil => exact absurd rfl hne
      | cons c x₂' =>
        have hc : c ∈ z := mem_of_suffix hx₂ (by simp)
        exact stripLit_none (not_isPrefixOf_of_head_ne _ _ (fun he => (hz c hc).1 he.symm))
    · exact stripLit_append [rbrace] t
  simpa [List.append_assoc] using this

/-- The two-group tail `(.*?)\]\{(.*?)\}` of the label-carrying regexes. -/
theorem labelChain_found (y z t : List Char)
    (hy : ∀ c ∈ y, c ≠ ']' ∧ isDot c = true)
    (hz : ∀ c ∈ z, c ≠ rbrace ∧ isDot c = true) :
    lazyFind (fun u =>
        match stripLit rbLb u with
        | none => none
        | some u1 => lazyFind (fun v => stripLit [rbrace] v) u1)
      (y ++ rbLb ++ z ++ [rbrace] ++ t)
    = some (y, (z, t)) := by
  have hassoc : y ++ rbLb ++ z ++ [rbrace] ++ t = y ++ (rbLb ++ (z ++ [rbrace] ++ t)) := by
    simp [List.append_assoc]
  rw [hassoc]
  apply lazyFind_found
  · exact fun c hc => (hy c hc).2
  · intro x₂ hx₂ hne
    cases x₂ with
    | nil => exact absurd rfl hne
    | cons c x₂' =>
      have hc : c ∈ y := mem_of_suffix hx₂ (by simp)
      have : stripLit rbLb (c :: x₂' ++ (rbLb ++ (z ++ [rbrace] ++ t))) = none := by
        exact stripLit_none (not_isPrefixOf_of_head_ne _ _ (fun he => (hy c hc).1 he.symm))
      simp only [List.cons_append] at this ⊢
      rw [this]
  · rw [stripLit_append]
    exact innerRb_found z t hz

/-- The three-group tail used by the journal-page and item regexes: a lazy
group, a distinguished literal, then the label chain. -/
theorem dotChain_found (B : List Char) (b0 : Char) (B' : List Char) (hB : B = b0 :: B')
    (x y z t : List Char)
    (hx : ∀ c ∈ x, c ≠ b0 ∧ isDot c = true)
    (hy : ∀ c ∈ y, c ≠ ']' ∧ isDot c = true)
    (hz : ∀ c ∈ z, c ≠ rbrace ∧ isDot c = true) :
    lazyFind (fun u =>
        match stripLit B u with
        | none => none
        | some u1 =>
          lazyFind (fun v =>
              match stripLit rbLb v with
              | none => none
              | some v1 => lazyFind (fun w => stripLit [rbrace] w) v1) u1)
      (x ++ B ++ y ++ rbLb ++ z ++ [rbrace] ++ t)
    = some (x, (y, (z, t))) := by
  have hassoc : x ++ B ++ y ++ rbLb ++ z ++ [rbrace] ++ t
      = x ++ (B ++ (y ++ rbLb ++ z ++ [rbrace] ++ t)) := by
    simp [List.append_assoc]
  rw [hassoc]
  apply lazyFind_found
  · exact fun c hc => (hx c hc).2
  · intro x₂ hx₂ hne
    cases x₂ with
    | nil => exact absurd rfl hne
    | cons c x₂' =>
      have hc : c ∈ x := mem_of_suffix hx₂ (by simp)
      have : stripLit B (c :: x₂' ++ (B ++ (y ++ rbLb ++ z ++ [rbrace] ++ t))) = none := by
        rw [hB]
        exact stripLit_none (not_isPrefixOf_of_head_ne _ _ (fun he => (hx c hc).1 he.symm))
      simp only [List.cons_append] at this ⊢
      rw [this]
  · rw [stripLit_append]
    exact labelChain_found y z t hy hz

/-- Hit shape of the Localize regex: the lazy key group ends at the first
closing bracket. -/
theorem matchLocalize_hit (k t : List Char)
    (hk : ∀ c ∈ k, c ≠ ']' ∧ isDot c = true) :
    matchLocalize (lc "@Localize[" ++ k ++ lc "]" ++ t) = some (k, t) := by
  have hassoc : lc "@Localize[" ++ k ++ lc "]" ++ t
      = lc "@Localize[" ++ (k ++ (lc "]" ++ t)) := by simp [List.append_assoc]
  rw [hassoc]
  simp only [matchLocalize, stripLit_append]
  apply lazyFind_found
  · exact fun c hc => (hk c hc).2
  · intro x₂ hx₂ hne
    cases x₂ with
    | nil => exact absurd rfl hne
    | cons c x₂' =>
      have hc : c ∈ k := mem_of_suffix hx₂ (by simp)
      have hq : lc "]" = ']' :: [] := rfl
      rw [hq]
      exact stripLit_none (not_isPrefixOf_of_head_ne _ _ (fun he => (hk c hc).1 he.symm))
  · exact stripLit_append (lc "]") t

/-- Hit shape of the Localize stage matcher: resolve the trimmed key, expand
on success, bold-wrap the trimmed key on failure. -/
theorem locMatcher_hit (d : LocData) (e : List Char → Option (List Char)) (k t : List Char)
    (hk : ∀ c ∈ k, c ≠ ']' ∧ isDot c = true) :
    locMatcher d e (lc "@Localize[" ++ k ++ lc "]" ++ t)
    = some
        (match resolvePath d (jsTrim k) with
         | some tr => e tr
         | none => some (strongWrap (jsTrim k)), t) := by
  simp only [locMatcher, matchLocalize_hit k t hk, Option.map_some]
  rfl

/-- Hit shape of the journal-page matcher on a well-formed directive. -/
theorem uuidJournalMatcher_hit (pids : List (List Char)) (x y z t : List Char)
    (hx : ∀ c ∈ x, c ≠ '.' ∧ isDot c = true)
    (hy : ∀ c ∈ y, c ≠ ']' ∧ isDot c = true)
    (hz : ∀ c ∈ z, c ≠ rbrace ∧ isDot c = true) :
    uuidJournalMatcher pids
      (lc "@UUID[JournalEntry." ++ x ++ lc ".JournalEntryPage." ++ y ++ rbLb ++ z ++ [rbrace] ++ t)
    = some (if pids.contains y then pageAnchor y z else strongWrap z, t) := by
  have hassoc : lc "@UUID[JournalEntry." ++ x ++ lc ".JournalEntryPage." ++ y ++ rbLb ++ z ++ [rbrace] ++ t
      = lc "@UUID[JournalEntry." ++ (x ++ lc ".JournalEntryPage." ++ y ++ rbLb ++ z ++ [rbrace] ++ t) := by
    simp [List.append_assoc]
  rw [hassoc]
  simp only [uuidJournalMatcher, stripLit_append,
    dotChain_found (lc ".JournalEntryPage.") '.' (lc "JournalEntryPage.") rfl x y z t hx hy hz]

/-- Trigger condition of the context-aware journal-page matcher. -/
theorem uuidJournalMatcherCtx_trigger (ctx : CrossCtx) (t : List Char)
    (h : (lc "@UUID[JournalEntry.").isPrefixOf t = false) :
    uuidJournalMatcherCtx ctx t = none := by
  simp [uuidJournalMatcherCtx, stripLit_none h]

/-- Hit shape of the context-aware journal-page matcher on a well-formed
directive. -/
theorem uuidJournalMatcherCtx_hit (ctx : CrossCtx) (x y z t : List Char)
    (hx : ∀ c ∈ x, c ≠ '.' ∧ isDot c = true)
    (hy : ∀ c ∈ y, c ≠ ']' ∧ isDot c = true)
    (hz : ∀ c ∈ z, c ≠ rbrace ∧ isDot c = true) :
    uuidJournalMatcherCtx ctx
      (lc "@UUID[JournalEntry." ++ x ++ lc ".JournalEntryPage." ++ y ++ rbLb ++ z ++ [rbrace] ++ t)
    = some (if ctx.journals.any (fun j => j.jid == x && j.pids.contains y)
              && (ctx.currentJournalId != some x) then crossAnchor x y z
            else if ctx.pageIds.contains y then pageAnchor y z
            else strongWrap z, t) := by
  have hassoc : lc "@UUID[JournalEntry." ++ x ++ lc ".JournalEntryPage." ++ y ++ rbLb ++ z ++ [rbrace] ++ t
      = lc "@UUID[JournalEntry." ++ (x ++ lc ".JournalEntryPage." ++ y ++ rbLb ++ z ++ [rbrace] ++ t) := by
    simp [List.append_assoc]
  rw [hassoc]
  simp only [uuidJournalMatcherCtx, stripLit_append,
    dotChain_found (lc ".JournalEntryPage.") '.' (lc "JournalEntryPage.") rfl x y z t hx hy hz]

/-- The greedy `[^\]]*\]` split on a bracket-free part. -/
theorem splitAtRB_append (x r : List Char) (hx : ∀ c ∈ x, c ≠ ']') :
    splitAtRB (x ++ ']' :: r) = some (x, r) := by
  induction x with
  | nil => simp [splitAtRB]
  | cons c x ih =>
    simp only [List.cons_append, splitAtRB, List.append_eq]
    rw [if_neg (hx c (by simp)), ih (fun c' hc' => hx c' (by simp [hc']))]
    rfl

/-- Hit shape of the Trait matcher on a bare `@Trait[slug]` directive with
nothing after it. -/
theorem traitMatcher_hit (locData : Option LocData) (slug : List Char)
    (hs : ∀ c ∈ slug, c ≠ ']') :
    traitMatcher locData (lc "@Trait[" ++ slug ++ lc "]")
    = some (traitReplace locData slug none, []) := by
  have h1 : lc "@Trait[" = lc "@Trait" ++ ['['] := rfl
  have h2 : lc "]" = ']' :: [] := rfl
  have hassoc : lc "@Trait[" ++ slug ++ lc "]" = lc "@Trait" ++ ('[' :: (slug ++ ']' :: [])) := by
    rw [h1, h2]
    simp [List.append_assoc]
  rw [hassoc]
  simp only [traitMatcher, stripLit_append, splitAtRB_append slug [] hs]

/-- Hit shape of the Trait matcher when an explicit brace-delimited label
follows the slug: the label group wins and is passed to the replacement. -/
theorem traitMatcher_hit_label (locData : Option LocData) (slug L : List Char)
    (hs : ∀ ch ∈ slug, ch ≠ ']')
    (hL : ∀ ch ∈ L, ch ≠ rbrace ∧ isDot ch = true) :
    traitMatcher locData (lc "@Trait[" ++ slug ++ lc "]" ++ [lbrace] ++ L ++ [rbrace])
      = some (traitReplace locData slug (some L), []) := by
  have h1 : lc "@Trait[" = lc "@Trait" ++ ['['] := rfl
  have h2 : lc "]" = ']' :: [] := rfl
  have hassoc : lc "@Trait[" ++ slug ++ lc "]" ++ [lbrace] ++ L ++ [rbrace]
      = lc "@Trait" ++ ('[' :: (slug ++ ']' :: (lbrace :: (L ++ [rbrace])))) := by
    rw [h1, h2]
    simp [List.append_assoc]
  rw [hassoc]
  have hrb : lazyFind (fun v => stripLit [rbrace] v) (L ++ [rbrace]) = some (L, []) := by
    have h := innerRb_found L [] hL
    simpa using h
  simp only [traitMatcher, stripLit_append,
    splitAtRB_append slug (lbrace :: (L ++ [rbrace])) hs, hrb, if_true]

/-- Hit shape of the Trait matcher on the `@Traits` spelling: the optional
`s` is consumed and the directive behaves exactly like `@Trait`. -/
theorem traitMatcher_hit_s (locData : Option LocData) (slug : List Char)
    (hs : ∀ ch ∈ slug, ch ≠ ']') :
    traitMatcher locData (lc "@Traits[" ++ slug ++ lc "]")
      = some (traitReplace locData slug none, []) := by
  have h1 : lc "@Traits[" = lc "@Trait" ++ ('s' :: '[' :: []) := rfl
  have h2 : lc "]" = ']' :: [] := rfl
  have hassoc : lc "@Traits[" ++ slug ++ lc "]"
      = lc "@Trait" ++ ('s' :: '[' :: (slug ++ ']' :: [])) := by
    rw [h1, h2]
    simp [List.append_assoc]
  rw [hassoc]
  simp only [traitMatcher, stripLit_append, splitAtRB_append slug [] hs]

/-- Well-nested bracket words: the scanning characterisation of a balanced
argument (`lvl` is the current surplus of open brackets; it never goes
negative and ends at zero). -/
def nestOk : List Char → Nat → Bool
  | [], lvl => lvl == 0
  | c :: s, lvl =>
    if c = '[' then nestOk s (lvl + 1)
    else if c = ']' then lvl != 0 && nestOk s (lvl - 1)
    else nestOk s lvl

/-- A word without brackets is well nested at level zero. -/
theorem nestOk_of_no_brackets (C : List Char) (h1 : '[' ∉ C) (h2 : ']' ∉ C) :
    nestOk C 0 = true := by
  induction C with
  | nil => rfl
  | cons c C ih =>
    have hc1 : c ≠ '[' := fun he => h1 (he ▸ List.mem_cons_self c C)
    have hc2 : c ≠ ']' := fun he => h2 (he ▸ List.mem_cons_self c C)
    simp only [nestOk, if_neg hc1, if_neg hc2]
    exact ih (fun hm => h1 (List.mem_cons_of_mem c hm)) (fun hm => h2 (List.mem_cons_of_mem c hm))

/-- The bracket-depth scanner returns exactly a well-nested argument,
stopping at the closing bracket that balances the opening one. -/
theorem scanContent_closes (C : List Char) (r : List Char) (n : Nat)
    (h : nestOk C n = true) :
    scanContent (C ++ ']' :: r) (n + 1) = some (C, r) := by
  induction C generalizing n with
  | nil =>
    have hn : n = 0 := by simpa [nestOk] using h
    subst hn
    simp [scanContent]
  | cons c C ih =>
    by_cases hc1 : c = '['
    · subst hc1
      have h' : nestOk C (n + 1) = true := by simpa [nestOk] using h
      have hrec := ih (n + 1) h'
      simp [scanContent, List.cons_append, hrec]
    · by_cases hc2 : c = ']'
      · subst hc2
        have h' : (n != 0 && nestOk C (n - 1)) = true := by simpa [nestOk] using h
        rw [Bool.and_eq_true] at h'
        obtain ⟨hn, h2⟩ := h'
        have hnn : n ≠ 0 := by simpa using hn
        have hn1 : ¬ n + 1 = 1 := by omega
        have heq : n + 1 - 1 = (n - 1) + 1 := by omega
        have hrec := ih (n - 1) h2
        simp [scanContent, List.cons_append, hn1, heq, hrec]
      · have h' : nestOk C n = true := by simpa [nestOk, hc1, hc2] using h
        have hrec := ih n h'
        simp [scanContent, List.cons_append, hc1, hc2, hrec]

/-- The bracket-depth scanner never closes when the string has no closing
bracket at all: the malformed branch is taken. -/
theorem scanContent_noclose (s : List Char) (h : ']' ∉ s) (lvl : Nat) :
    scanContent s lvl = none := by
  induction s generalizing lvl with
  | nil => rfl
  | cons c s ih =>
    have hc : c ≠ ']' := fun he => h (he ▸ List.mem_cons_self c s)
    have ih' := fun lvl => ih (fun hm => h (List.mem_cons_of_mem c hm)) lvl
    by_cases hb : c = '['
    · simp [scanContent, hb, ih']
    · simp [scanContent, hb, hc, ih']

/-- Hit shape of the bracket-depth matcher on a well-nested argument with no
label and nothing after the directive. -/
theorem tagMatcher_hit (tagPat : List Char)
    (tr : List Char → Option (List Char) → List Char) (C : List Char)
    (h : nestOk C 0 = true) :
    tagMatcher tagPat tr (tagPat ++ C ++ lc "]") = some (tr C none, []) := by
  have hassoc : tagPat ++ C ++ lc "]" = tagPat ++ (C ++ ']' :: []) := by
    simp [List.append_assoc]
    rfl
  rw [hassoc]
  simp only [tagMatcher, stripLit_append, scanContent_closes C [] 0 h, tryLabel,
    List.dropWhile_nil]

/-- Hit shape of the bracket-depth matcher on an unterminated directive: the
tag prefix is emitted verbatim and scanning resumes right after it. -/
theorem tagMatcher_unterminated (tagPat : List Char)
    (tr : List Char → Option (List Char) → List Char) (s : List Char)
    (h : ']' ∉ s) :
    tagMatcher tagPat tr (tagPat ++ s) = some (tagPat, s) := by
  simp only [tagMatcher, stripLit_append, scanContent_noclose s h 1]

/-- The brace-depth label scanner stops at the closing brace of a brace-free
label. -/
theorem scanBrace_closes (L r : List Char) (hLb : lbrace ∉ L) (hLr : rbrace ∉ L) :
    scanBrace (L ++ rbrace :: r) 1 = some (L, r) := by
  induction L with
  | nil => simp [scanBrace, show ¬ rbrace = lbrace from by decide]
  | cons c L ih =>
    have hc1 : c ≠ lbrace := fun h => hLb (h ▸ List.mem_cons_self c L)
    have hc2 : c ≠ rbrace := fun h => hLr (h ▸ List.mem_cons_self c L)
    have ih' := ih (fun h => hLb (List.mem_cons_of_mem _ h))
      (fun h => hLr (List.mem_cons_of_mem _ h))
    simp [scanBrace, List.cons_append, hc1, hc2, ih']

/-- Hit shape of the bracket-depth matcher on a well-nested argument with an
explicit brace-delimited label right after the closing bracket. -/
theorem tagMatcher_hit_label (tagPat : List Char)
    (tr : List Char → Option (List Char) → List Char) (C L : List Char)
    (h : nestOk C 0 = true) (hLb : lbrace ∉ L) (hLr : rbrace ∉ L) :
    tagMatcher tagPat tr (tagPat ++ C ++ lc "]" ++ [lbrace] ++ L ++ [rbrace])
      = some (tr C (some L), []) := by
  have hassoc : tagPat ++ C ++ lc "]" ++ [lbrace] ++ L ++ [rbrace]
      = tagPat ++ (C ++ ']' :: (lbrace :: (L ++ rbrace :: []))) := by
    simp [List.append_assoc]
    rfl
  rw [hassoc]
  have htl : tryLabel (lbrace :: (L ++ rbrace :: [])) = some (L, []) := by
    simp [tryLabel, show isJsWs lbrace = false from by decide, scanBrace_closes L [] hLb hLr]
  simp only [tagMatcher, stripLit_append,
    scanContent_closes C (lbrace :: (L ++ rbrace :: [])) 0 h, htl]

/-- Membership in an append, refutation form. -/
theorem not_mem_append {a : Char} {x y : List Char} (hx : a ∉ x) (hy : a ∉ y) :
    a ∉ x ++ y := by
  intro h
  rcases List.mem_append.mp h with h' | h'
  · exact hx h'
  · exact hy h'

/-- A prefix test against a long enough frame is decided by the frame. -/
theorem isPrefixOf_false_frame (p q xs : List Char)
    (hlen : p.length ≤ q.length) (hpq : p.isPrefixOf q = false) :
    p.isPrefixOf (q ++ xs) = false := by
  rw [isPrefixOf_append_of_le p q xs hlen]
  exact hpq

/-- Any `@`-triggered stage is the identity on an `@`-free string. -/
theorem rwScan_id_noat (m : List Char → Option (List Char × List Char)) (p' : List Char)
    (hm : ∀ t, ('@' :: p').isPrefixOf t = false → m t = none)
    (s : List Char) (h : '@' ∉ s) : rwScan m 0 s = s :=
  rwScan_id m s (noHit_of_no_at m p' hm s h)

/-- Any `@`-triggered stage is the identity on a string with a single `@` at
which it misses. -/
theorem rwScan_id_single (m : List Char → Option (List Char × List Char)) (p' : List Char)
    (hm : ∀ t, ('@' :: p').isPrefixOf t = false → m t = none)
    (x r : List Char) (hx : '@' ∉ x) (hr : '@' ∉ r)
    (hmiss : m ('@' :: r) = none) : rwScan m 0 (x ++ '@' :: r) = x ++ '@' :: r :=
  rwScan_id m _ (noHit_single_at m p' hm x r hx hr hmiss)

/-- Fallible-scan version of `rwScan_id_noat`. -/
theorem rwScanO_id_noat (m : List Char → Option (Option (List Char) × List Char)) (p' : List Char)
    (hm : ∀ t, ('@' :: p').isPrefixOf t = false → m t = none)
    (s : List Char) (h : '@' ∉ s) : rwScanO m 0 s = some s :=
  rwScanO_id m s (noHit_of_no_at m p' hm s h)

/-- Fallible-scan version of `rwScan_id_single`. -/
theorem rwScanO_id_single (m : List Char → Option (Option (List Char) × List Char)) (p' : List Char)
    (hm : ∀ t, ('@' :: p').isPrefixOf t = false → m t = none)
    (x r : List Char) (hx : '@' ∉ x) (hr : '@' ∉ r)
    (hmiss : m ('@' :: r) = none) : rwScanO m 0 (x ++ '@' :: r) = some (x ++ '@' :: r) :=
  rwScanO_id m _ (noHit_single_at m p' hm x r hx hr hmiss)

/-!  Per-stage identity corollaries on `@`-free strings. -/

/-- The Compendium stage on an `@`-free string. -/
theorem compendiumStage_noat (s : List Char) (h : '@' ∉ s) :
    rwScan compendiumMatcher 0 s = s :=
  rwScan_id_noat _ (lc "Compendium[") (fun t ht => compendiumMatcher_trigger t ht) s h

/-- The journal-page stage on an `@`-free string. -/
theorem journalStage_noat (pids : List (List Char)) (s : List Char) (h : '@' ∉ s) :
    rwScan (uuidJournalMatcher pids) 0 s = s :=
  rwScan_id_noat _ (lc "UUID[JournalEntry.") (fun t ht => uuidJournalMatcher_trigger pids t ht) s h

/-- The actor stage on an `@`-free string. -/
theorem actorStage_noat (s : List Char) (h : '@' ∉ s) :
    rwScan uuidActorMatcher 0 s = s :=
  rwScan_id_noat _ (lc "UUID[Actor.") (fun t ht => uuidActorMatcher_trigger t ht) s h

/-- The item stage on an `@`-free string. -/
theorem itemStage_noat (s : List Char) (h : '@' ∉ s) :
    rwScan uuidItemMatcher 0 s = s :=
  rwScan_id_noat _ (lc "UUID[") (fun t ht => uuidItemMatcher_trigger t ht) s h

/-- The generic UUID stage on an `@`-free string. -/
theorem genericStage_noat (s : List Char) (h : '@' ∉ s) :
    rwScan uuidGenericMatcher 0 s = s :=
  rwScan_id_noat _ (lc "UUID[") (fun t ht => uuidGenericMatcher_trigger t ht) s h

/-- The Trait stage on an `@`-free string. -/
theorem traitStage_noat (ld : Option LocData) (s : List Char) (h : '@' ∉ s) :
    rwScan (traitMatcher ld) 0 s = s :=
  rwScan_id_noat _ (lc "Trait") (fun t ht => traitMatcher_trigger ld t ht) s h

/-- The Condition stage on an `@`-free string. -/
theorem conditionStage_noat (s : List Char) (h : '@' ∉ s) :
    rwScan conditionMatcher 0 s = s :=
  rwScan_id_noat _ (lc "Condition[") (fun t ht => conditionMatcher_trigger t ht) s h

/-- The Damage stage on an `@`-free string. -/
theorem damageStage_noat (s : List Char) (h : '@' ∉ s) :
    parseAndReplace (lc "@Damage[") damageTr s = s :=
  rwScan_id_noat _ (lc "Damage[") (fun t ht => tagMatcher_trigger (lc "@Damage[") damageTr t ht) s h

/-- The Check stage on an `@`-free string. -/
theorem checkStage_noat (s : List Char) (h : '@' ∉ s) :
    parseAndReplace (lc "@Check[") checkTr s = s :=
  rwScan_id_noat _ (lc "Check[") (fun t ht => tagMatcher_trigger (lc "@Check[") checkTr t ht) s h

/-- The Localize stage on an `@`-free string. -/
theorem locStage_noat (d : LocData) (e : List Char → Option (List Char)) (s : List Char)
    (h : '@' ∉ s) : rwScanO (locMatcher d e) 0 s = some s :=
  rwScanO_id_noat _ (lc "Localize[") (fun t ht => locMatcher_trigger d e t ht) s h

/-- The stages that follow the journal-page rule, on an `@`-free string. -/
theorem lateStages_noat (ld : Option LocData) (s : List Char) (h : '@' ∉ s) :
    parseAndReplace (lc "@Check[") checkTr
      (parseAndReplace (lc "@Damage[") damageTr
        (rwScan conditionMatcher 0
          (rwScan (traitMatcher ld) 0
            (rwScan uuidGenericMatcher 0
              (rwScan uuidItemMatcher 0
                (rwScan uuidActorMatcher 0 s)))))) = s := by
  rw [actorStage_noat s h, itemStage_noat s h, genericStage_noat s h, traitStage_noat ld s h,
    conditionStage_noat s h, damageStage_noat s h, checkStage_noat s h]

/-- A hit at the head of the string that consumes everything. -/
theorem rwScan_hit_all (m : List Char → Option (List Char × List Char))
    (c : Char) (s' rep : List Char)
    (hm : m (c :: s') = some (rep, [])) : rwScan m 0 (c :: s') = rep := by
  rw [rwScan_hit m c s' s' [] rep hm (List.append_nil s').symm]
  simp [rwScan]

/-- A prefix test against a frame that is itself shorter than the pattern is
decided by the pattern's head part. -/
theorem isPrefixOf_false_frame₂ (p q xs : List Char)
    (hlen : q.length ≤ p.length) (hqp : q.isPrefixOf p = false) :
    p.isPrefixOf (q ++ xs) = false := by
  induction q generalizing p with
  | nil => rw [isPrefixOf_nil_left] at hqp; exact absurd hqp (by simp)
  | cons b q ih =>
    cases p with
    | nil => simp at hlen
    | cons a p =>
      simp only [List.cons_append, isPrefixOf_cons₂]
      by_cases hab : a = b
      · subst hab
        rw [isPrefixOf_cons₂] at hqp
        simp only [beq_self_eq_true, Bool.true_and] at hqp ⊢
        exact ih p (by simpa using hlen) hqp
      · simp [beq_eq_false_iff_ne.mpr hab]

/-- Claim C3 (page-reference round trip): transforming
`@UUID[JournalEntry.<x>.JournalEntryPage.<p>]{L}` yields, whenever the
page-id set of the context contains `p`, a clickable anchor carrying `p` as
its `data-page-id` attribute and visible text `L`; and whenever the set does
not contain `p`, the bold-wrapped label `L` instead.  The hypotheses say
only that the locator parts and the label are free of the delimiter
characters and of further directives, as in any well-formed directive. -/
theorem C3_page_reference (pids : List (List Char)) (locData : Option LocData) (depth : Nat)
    (x p L : List Char)
    (hx : ∀ c ∈ x, c ≠ '.' ∧ c ≠ '@' ∧ isDot c = true)
    (hp : ∀ c ∈ p, c ≠ ']' ∧ c ≠ '@' ∧ isDot c = true)
    (hL : ∀ c ∈ L, c ≠ rbrace ∧ c ≠ '@' ∧ isDot c = true) :
    processFoundryTags (depth + 1)
        (lc "@UUID[JournalEntry." ++ x ++ lc ".JournalEntryPage." ++ p ++ rbLb ++ L ++ [rbrace])
        pids locData
      = some (if pids.contains p then pageAnchor p L else strongWrap L) := by
  have hxat : '@' ∉ x := fun hc => ((hx _ hc).2.1) rfl
  have hpat : '@' ∉ p := fun hc => ((hp _ hc).2.1) rfl
  have hLat : '@' ∉ L := fun hc => ((hL _ hc).2.1) rfl
  have hnoat : '@' ∉ lc "UUID[JournalEntry." ++ x ++ lc ".JournalEntryPage." ++ p ++ rbLb ++ L ++ [rbrace] :=
    not_mem_append (not_mem_append (not_mem_append (not_mem_append (not_mem_append
      (not_mem_append (show ('@' : Char) ∉ lc "UUID[JournalEntry." by decide) hxat)
        (show ('@' : Char) ∉ lc ".JournalEntryPage." by decide)) hpat)
          (show ('@' : Char) ∉ rbLb by decide)) hLat)
            (show ('@' : Char) ∉ [rbrace] by decide)
  have hin : lc "@UUID[JournalEntry." ++ x ++ lc ".JournalEntryPage." ++ p ++ rbLb ++ L ++ [rbrace]
      = '@' :: (lc "UUID[JournalEntry." ++ x ++ lc ".JournalEntryPage." ++ p ++ rbLb ++ L ++ [rbrace]) := rfl
  have hne : lc "@UUID[JournalEntry." ++ x ++ lc ".JournalEntryPage." ++ p ++ rbLb ++ L ++ [rbrace]
      ≠ ([] : List Char) := by rw [hin]; exact List.cons_ne_nil _ _
  have h1 : ∀ (d : LocData) (e : List Char → Option (List Char)),
      rwScanO (locMatcher d e) 0
        (lc "@UUID[JournalEntry." ++ x ++ lc ".JournalEntryPage." ++ p ++ rbLb ++ L ++ [rbrace])
      = some (lc "@UUID[JournalEntry." ++ x ++ lc ".JournalEntryPage." ++ p ++ rbLb ++ L ++ [rbrace]) := by
    intro d e
    rw [hin]
    refine rwScanO_id _ _ (noHit_single_at _ (lc "Localize[")
      (fun t ht => locMatcher_trigger d e t ht) [] _ (by simp) hnoat ?_)
    refine locMatcher_trigger d e _ ?_
    rw [← hin]
    exact isPrefixOf_false_frame _ (lc "@UUID[JournalEntry.") _ (by decide) (by decide)
  have h2 : rwScan compendiumMatcher 0
      (lc "@UUID[JournalEntry." ++ x ++ lc ".JournalEntryPage." ++ p ++ rbLb ++ L ++ [rbrace])
      = lc "@UUID[JournalEntry." ++ x ++ lc ".JournalEntryPage." ++ p ++ rbLb ++ L ++ [rbrace] := by
    rw [hin]
    refine rwScan_id _ _ (noHit_single_at _ (lc "Compendium[")
      (fun t ht => compendiumMatcher_trigger t ht) [] _ (by simp) hnoat ?_)
    refine compendiumMatcher_trigger _ ?_
    rw [← hin]
    exact isPrefixOf_false_frame _ (lc "@UUID[JournalEntry.") _ (by decide) (by decide)
  have hm3 : uuidJournalMatcher pids
      (lc "@UUID[JournalEntry." ++ x ++ lc ".JournalEntryPage." ++ p ++ rbLb ++ L ++ [rbrace])
      = some (if pids.contains p then pageAnchor p L else strongWrap L, []) := by
    have hfr := uuidJournalMatcher_hit pids x p L []
      (fun c hc => ⟨(hx c hc).1, (hx c hc).2.2⟩)
      (fun c hc => ⟨(hp c hc).1, (hp c hc).2.2⟩)
      (fun c hc => ⟨(hL c hc).1, (hL c hc).2.2⟩)
    simp only [List.append_nil] at hfr
    exact hfr
  have h3 : rwScan (uuidJournalMatcher pids) 0
      (lc "@UUID[JournalEntry." ++ x ++ lc ".JournalEntryPage." ++ p ++ rbLb ++ L ++ [rbrace])
      = (if pids.contains p then pageAnchor p L else strongWrap L) := by
    rw [hin] at hm3 ⊢
    exact rwScan_hit_all (uuidJournalMatcher pids) '@' _ _ hm3
  have hrep : '@' ∉ (if pids.contains p then pageAnchor p L else strongWrap L) := by
    by_cases hc : pids.contains p = true
    · rw [if_pos hc]
      exact not_mem_append (not_mem_append (not_mem_append (not_mem_append
        (show ('@' : Char) ∉ lc "<a href=\"#\" class=\"internal-journal-link\" data-page-id=\"" by decide)
        hpat) (show ('@' : Char) ∉ lc "\">" by decide)) hLat)
        (show ('@' : Char) ∉ lc "</a>" by decide)
    · rw [if_neg hc]
      exact not_mem_append (not_mem_append (show ('@' : Char) ∉ lc "<strong>" by decide) hLat)
        (show ('@' : Char) ∉ lc "</strong>" by decide)
  cases locData with
  | none =>
    simp only [processFoundryTags, if_neg hne, h2, h3,
      lateStages_noat none _ hrep]
  | some d =>
    simp only [processFoundryTags, if_neg hne, h1, h2, h3,
      lateStages_noat (some d) _ hrep]

/-- Claim C4 (cross-journal references): under the extended resolution
context that also carries the cross-journal graph, a journal-page directive
`@UUID[JournalEntry.<x>.JournalEntryPage.<p>]{L}` naming a page of another
journal — `x` appears in the graph with page `p` and is not the current
journal id — becomes the clickable cross-journal marker carrying both the
target journal id and the target page id as data attributes.  No hypothesis
restricts the current journal's page-id set, so the cross-journal rule wins
even when `p` also belongs to the current journal. -/
theorem C4_cross_journal (ctx : CrossCtx) (locData : Option LocData) (depth : Nat)
    (x p L : List Char)
    (hx : ∀ c ∈ x, c ≠ '.' ∧ c ≠ '@' ∧ isDot c = true)
    (hp : ∀ c ∈ p, c ≠ ']' ∧ c ≠ '@' ∧ isDot c = true)
    (hL : ∀ c ∈ L, c ≠ rbrace ∧ c ≠ '@' ∧ isDot c = true)
    (hgraph : ctx.journals.any (fun j => j.jid == x && j.pids.contains p) = true)
    (hcur : ctx.currentJournalId ≠ some x) :
    processFoundryTagsCtx (depth + 1)
        (lc "@UUID[JournalEntry." ++ x ++ lc ".JournalEntryPage." ++ p ++ rbLb ++ L ++ [rbrace])
        ctx locData
      = some (crossAnchor x p L) := by
  have hxat : '@' ∉ x := fun hc => ((hx _ hc).2.1) rfl
  have hpat : '@' ∉ p := fun hc => ((hp _ hc).2.1) rfl
  have hLat : '@' ∉ L := fun hc => ((hL _ hc).2.1) rfl
  have hnoat : '@' ∉ lc "UUID[JournalEntry." ++ x ++ lc ".JournalEntryPage." ++ p ++ rbLb ++ L ++ [rbrace] :=
    not_mem_append (not_mem_append (not_mem_append (not_mem_append (not_mem_append
      (not_mem_append (show ('@' : Char) ∉ lc "UUID[JournalEntry." by decide) hxat)
        (show ('@' : Char) ∉ lc ".JournalEntryPage." by decide)) hpat)
          (show ('@' : Char) ∉ rbLb by decide)) hLat)
            (show ('@' : Char) ∉ [rbrace] by decide)
  have hin : lc "@UUID[JournalEntry." ++ x ++ lc ".JournalEntryPage." ++ p ++ rbLb ++ L ++ [rbrace]
      = '@' :: (lc "UUID[JournalEntry." ++ x ++ lc ".JournalEntryPage." ++ p ++ rbLb ++ L ++ [rbrace]) := rfl
  have hne : lc "@UUID[JournalEntry." ++ x ++ lc ".JournalEntryPage." ++ p ++ rbLb ++ L ++ [rbrace]
      ≠ ([] : List Char) := by rw [hin]; exact List.cons_ne_nil _ _
  have h1 : ∀ (d : LocData) (e : List Char → Option (List Char)),
      rwScanO (locMatcher d e) 0
        (lc "@UUID[JournalEntry." ++ x ++ lc ".JournalEntryPage." ++ p ++ rbLb ++ L ++ [rbrace])
      = some (lc "@UUID[JournalEntry." ++ x ++ lc ".JournalEntryPage." ++ p ++ rbLb ++ L ++ [rbrace]) := by
    intro d e
    rw [hin]
    refine rwScanO_id _ _ (noHit_single_at _ (lc "Localize[")
      (fun t ht => locMatcher_trigger d e t ht) [] _ (by simp) hnoat ?_)
    refine locMatcher_trigger d e _ ?_
    rw [← hin]
    exact isPrefixOf_false_frame _ (lc "@UUID[JournalEntry.") _ (by decide) (by decide)
  have h2 : rwScan compendiumMatcher 0
      (lc "@UUID[JournalEntry." ++ x ++ lc ".JournalEntryPage." ++ p ++ rbLb ++ L ++ [rbrace])
      = lc "@UUID[JournalEntry." ++ x ++ lc ".JournalEntryPage." ++ p ++ rbLb ++ L ++ [rbrace] := by
    rw [hin]
    refine rwScan_id _ _ (noHit_single_at _ (lc "Compendium[")
      (fun t ht => compendiumMatcher_trigger t ht) [] _ (by simp) hnoat ?_)
    refine compendiumMatcher_trigger _ ?_
    rw [← hin]
    exact isPrefixOf_false_frame _ (lc "@UUID[JournalEntry.") _ (by decide) (by decide)
  have hb : (ctx.currentJournalId != some x) = true := by
    simpa using hcur
  have hm3 : uuidJournalMatcherCtx ctx
      (lc "@UUID[JournalEntry." ++ x ++ lc ".JournalEntryPage." ++ p ++ rbLb ++ L ++ [rbrace])
      = some (crossAnchor x p L, []) := by
    have hfr := uuidJournalMatcherCtx_hit ctx x p L []
      (fun c hc => ⟨(hx c hc).1, (hx c hc).2.2⟩)
      (fun c hc => ⟨(hp c hc).1, (hp c hc).2.2⟩)
      (fun c hc => ⟨(hL c hc).1, (hL c hc).2.2⟩)
    rw [List.append_nil, hgraph, hb] at hfr
    simpa using hfr
  have h3 : rwScan (uuidJournalMatcherCtx ctx) 0
      (lc "@UUID[JournalEntry." ++ x ++ lc ".JournalEntryPage." ++ p ++ rbLb ++ L ++ [rbrace])
      = crossAnchor x p L := by
    rw [hin] at hm3 ⊢
    exact rwScan_hit_all (uuidJournalMatcherCtx ctx) '@' _ _ hm3
  have hrep : '@' ∉ crossAnchor x p L :=
    not_mem_append (not_mem_append (not_mem_append (not_mem_append (not_mem_append (not_mem_append
      (show ('@' : Char) ∉ lc "<a href=\"#\" class=\"internal-journal-link\" data-journal-foundry-id=\"" by decide)
      hxat) (show ('@' : Char) ∉ lc "\" data-page-foundry-id=\"" by decide)) hpat)
      (show ('@' : Char) ∉ lc "\">" by decide)) hLat)
      (show ('@' : Char) ∉ lc "</a>" by decide)
  cases locData with
  | none =>
    simp only [processFoundryTagsCtx, if_neg hne, h2, h3,
      lateStages_noat none _ hrep]
  | some d =>
    simp only [processFoundryTagsCtx, if_neg hne, h1, h2, h3,
      lateStages_noat (some d) _ hrep]

/-- If two words are mutually not prefixes, neither is the first a prefix of
anything extending the second. -/
theorem isPrefixOf_false_frameAll (p q xs : List Char)
    (h1 : p.isPrefixOf q = false) (h2 : q.isPrefixOf p = false) :
    p.isPrefixOf (q ++ xs) = false := by
  induction q generalizing p with
  | nil => rw [isPrefixOf_nil_left] at h2; exact absurd h2 (by simp)
  | cons b q ih =>
    cases p with
    | nil => rw [isPrefixOf_nil_left] at h1; exact absurd h1 (by simp)
    | cons a p =>
      simp only [List.cons_append, isPrefixOf_cons₂]
      by_cases hab : a = b
      · subst hab
        rw [isPrefixOf_cons₂] at h1 h2
        simp only [beq_self_eq_true, Bool.true_and] at h1 h2 ⊢
        exact ih p h1 h2
      · simp [beq_eq_false_iff_ne.mpr hab]

/-- Identity of a stage on a string whose only `@` is at the head and whose
trigger does not match there. -/
theorem rwScan_id_headat (m : List Char → Option (List Char × List Char)) (p' : List Char)
    (hm : ∀ t, ('@' :: p').isPrefixOf t = false → m t = none)
    (r : List Char) (hr : '@' ∉ r)
    (hpm : ('@' :: p').isPrefixOf ('@' :: r) = false) :
    rwScan m 0 ('@' :: r) = '@' :: r :=
  rwScan_id _ _ (noHit_single_at _ p' hm [] r (by simp) hr (hm _ hpm))

/-- Fallible-scan version of `rwScan_id_headat`. -/
theorem rwScanO_id_headat (m : List Char → Option (Option (List Char) × List Char)) (p' : List Char)
    (hm : ∀ t, ('@' :: p').isPrefixOf t = false → m t = none)
    (r : List Char) (hr : '@' ∉ r)
    (hpm : ('@' :: p').isPrefixOf ('@' :: r) = false) :
    rwScanO m 0 ('@' :: r) = some ('@' :: r) :=
  rwScanO_id _ _ (noHit_single_at _ p' hm [] r (by simp) hr (hm _ hpm))


/-- Claim C5 (damage nesting): for a well-nested argument `C` (brackets
balanced and never closing below the starting depth, here stated through the
scanning characterisation `nestOk`), `@Damage[C]` yields the entire content
`C` unchanged, bold-wrapped, with no truncation at an inner bracket. -/
theorem C5_damage_nested (pids : List (List Char)) (locData : Option LocData) (depth : Nat)
    (C : List Char) (hC : '@' ∉ C) (hbal : nestOk C 0 = true) :
    processFoundryTags (depth + 1) (lc "@Damage[" ++ C ++ lc "]") pids locData
      = some (strongWrap C) := by
  have hnoat : '@' ∉ lc "Damage[" ++ C ++ lc "]" :=
    not_mem_append (not_mem_append (show ('@' : Char) ∉ lc "Damage[" by decide) hC)
      (show ('@' : Char) ∉ lc "]" by decide)
  have hin : lc "@Damage[" ++ C ++ lc "]" = '@' :: (lc "Damage[" ++ C ++ lc "]") := rfl
  have hne : lc "@Damage[" ++ C ++ lc "]" ≠ ([] : List Char) := by
    rw [hin]; exact List.cons_ne_nil _ _
  have hpm : ∀ pat : List Char, pat.isPrefixOf (lc "@Damage[") = false →
      (lc "@Damage[").isPrefixOf pat = false →
      pat.isPrefixOf ('@' :: (lc "Damage[" ++ C ++ lc "]")) = false := by
    intro pat hp1 hp2
    rw [← hin, List.append_assoc]
    exact isPrefixOf_false_frameAll pat (lc "@Damage[") _ hp1 hp2
  have h1 : ∀ (d : LocData) (e : List Char → Option (List Char)),
      rwScanO (locMatcher d e) 0 (lc "@Damage[" ++ C ++ lc "]")
        = some (lc "@Damage[" ++ C ++ lc "]") := by
    intro d e
    rw [hin]
    exact rwScanO_id_headat _ _ (fun t ht => locMatcher_trigger d e t ht) _ hnoat
      (hpm (lc "@Localize[") (by decide) (by decide))
  have h2 : rwScan compendiumMatcher 0 (lc "@Damage[" ++ C ++ lc "]")
      = lc "@Damage[" ++ C ++ lc "]" := by
    rw [hin]
    exact rwScan_id_headat _ _ (fun t ht => compendiumMatcher_trigger t ht) _ hnoat
      (hpm (lc "@Compendium[") (by decide) (by decide))
  have h3 : rwScan (uuidJournalMatcher pids) 0 (lc "@Damage[" ++ C ++ lc "]")
      = lc "@Damage[" ++ C ++ lc "]" := by
    rw [hin]
    exact rwScan_id_headat _ _ (fun t ht => uuidJournalMatcher_trigger pids t ht) _ hnoat
      (hpm (lc "@UUID[JournalEntry.") (by decide) (by decide))
  have h4 : rwScan uuidActorMatcher 0 (lc "@Damage[" ++ C ++ lc "]")
      = lc "@Damage[" ++ C ++ lc "]" := by
    rw [hin]
    exact rwScan_id_headat _ _ (fun t ht => uuidActorMatcher_trigger t ht) _ hnoat
      (hpm (lc "@UUID[Actor.") (by decide) (by decide))
  have h5 : rwScan uuidItemMatcher 0 (lc "@Damage[" ++ C ++ lc "]")
      = lc "@Damage[" ++ C ++ lc "]" := by
    rw [hin]
    exact rwScan_id_headat _ _ (fun t ht => uuidItemMatcher_trigger t ht) _ hnoat
      (hpm (lc "@UUID[") (by decide) (by decide))
  have h6 : rwScan uuidGenericMatcher 0 (lc "@Damage[" ++ C ++ lc "]")
      = lc "@Damage[" ++ C ++ lc "]" := by
    rw [hin]
    exact rwScan_id_headat _ _ (fun t ht => uuidGenericMatcher_trigger t ht) _ hnoat
      (hpm (lc "@UUID[") (by decide) (by decide))
  have h7 : ∀ ld : Option LocData, rwScan (traitMatcher ld) 0 (lc "@Damage[" ++ C ++ lc "]")
      = lc "@Damage[" ++ C ++ lc "]" := by
    intro ld
    rw [hin]
    exact rwScan_id_headat _ _ (fun t ht => traitMatcher_trigger ld t ht) _ hnoat
      (hpm (lc "@Trait") (by decide) (by decide))
  have h8 : rwScan conditionMatcher 0 (lc "@Damage[" ++ C ++ lc "]")
      = lc "@Damage[" ++ C ++ lc "]" := by
    rw [hin]
    exact rwScan_id_headat _ _ (fun t ht => conditionMatcher_trigger t ht) _ hnoat
      (hpm (lc "@Condition[") (by decide) (by decide))
  have hm9 : tagMatcher (lc "@Damage[") damageTr (lc "@Damage[" ++ C ++ lc "]")
      = some (strongWrap C, []) := tagMatcher_hit (lc "@Damage[") damageTr C hbal
  have h9 : parseAndReplace (lc "@Damage[") damageTr (lc "@Damage[" ++ C ++ lc "]")
      = strongWrap C := by
    rw [hin] at hm9 ⊢
    exact rwScan_hit_all _ '@' _ _ hm9
  have h10 : parseAndReplace (lc "@Check[") checkTr (strongWrap C) = strongWrap C :=
    checkStage_noat _ (not_mem_append
      (not_mem_append (show ('@' : Char) ∉ lc "<strong>" by decide) hC)
      (show ('@' : Char) ∉ lc "</strong>" by decide))
  cases locData with
  | none => simp only [processFoundryTags, if_neg hne, h2, h3, h4, h5, h6, h7, h8, h9, h10]
  | some d => simp only [processFoundryTags, if_neg hne, h1, h2, h3, h4, h5, h6, h7, h8, h9, h10]


/-- An unterminated bracket-depth directive leaves the whole string intact:
the tag prefix is emitted verbatim, scanning resumes right after it, and the
following text is preserved. -/
theorem parseAndReplace_unterminated_frame (tagPat' : List Char)
    (tr : List Char → Option (List Char) → List Char) (pre s : List Char)
    (hpre : '@' ∉ pre) (hs : '@' ∉ s) (hnb : ']' ∉ s) :
    parseAndReplace ('@' :: tagPat') tr (pre ++ ('@' :: (tagPat' ++ s)))
      = pre ++ ('@' :: (tagPat' ++ s)) := by
  have hpre9 : ∀ a', a' <:+ pre → a' ≠ [] →
      tagMatcher ('@' :: tagPat') tr (a' ++ ('@' :: (tagPat' ++ s))) = none := by
    intro a' ha' hne'
    cases a' with
    | nil => exact absurd rfl hne'
    | cons c a'' =>
      refine tagMatcher_trigger _ _ _ ?_
      have hc : c ∈ pre := mem_of_suffix ha' (by simp)
      exact not_isPrefixOf_of_head_ne _ _ (fun he => hpre (he ▸ hc))
  have hm : tagMatcher ('@' :: tagPat') tr ('@' :: (tagPat' ++ s))
      = some ('@' :: tagPat', s) := tagMatcher_unterminated ('@' :: tagPat') tr s hnb
  have hhit := rwScan_hit (tagMatcher ('@' :: tagPat') tr) '@' (tagPat' ++ s)
      tagPat' s ('@' :: tagPat') hm rfl
  have hid : rwScan (tagMatcher ('@' :: tagPat') tr) 0 s = s :=
    rwScan_id_noat _ tagPat' (fun t ht => tagMatcher_trigger _ _ t ht) s hs
  show rwScan (tagMatcher ('@' :: tagPat') tr) 0 (pre ++ ('@' :: (tagPat' ++ s))) = _
  rw [rwScan_append _ pre _ hpre9, hhit, hid]
  rfl

/-- Claim C6 (malformed-input safety): an unterminated `@Damage[` or
`@Check[` directive does not lose any text; the transformer returns the
input unchanged (the unmatched opening token is emitted verbatim and the
text after it, here everything in `s` and before it in `pre`, is kept). -/
theorem C6_unterminated (pids : List (List Char)) (locData : Option LocData) (depth : Nat)
    (pre s : List Char) (hpre : '@' ∉ pre) (hs : '@' ∉ s) (hnb : ']' ∉ s) :
    processFoundryTags (depth + 1) (pre ++ lc "@Damage[" ++ s) pids locData
        = some (pre ++ lc "@Damage[" ++ s)
    ∧ processFoundryTags (depth + 1) (pre ++ lc "@Check[" ++ s) pids locData
        = some (pre ++ lc "@Check[" ++ s) := by
  have hDs : ∀ tail : List Char, pre ++ lc "@Damage[" ++ tail = pre ++ ('@' :: (lc "Damage[" ++ tail)) := by
    intro tail
    rw [List.append_assoc]
    rfl
  have hCs : ∀ tail : List Char, pre ++ lc "@Check[" ++ tail = pre ++ ('@' :: (lc "Check[" ++ tail)) := by
    intro tail
    rw [List.append_assoc]
    rfl
  constructor
  · -- the @Damage conjunct
    rw [hDs s]
    have hr : '@' ∉ lc "Damage[" ++ s :=
      not_mem_append (show ('@' : Char) ∉ lc "Damage[" by decide) hs
    have hpm : ∀ pat : List Char, pat.isPrefixOf (lc "@Damage[") = false →
        (lc "@Damage[").isPrefixOf pat = false →
        pat.isPrefixOf ('@' :: (lc "Damage[" ++ s)) = false := by
      intro pat hp1 hp2
      exact isPrefixOf_false_frameAll pat (lc "@Damage[") _ hp1 hp2
    have hne : pre ++ ('@' :: (lc "Damage[" ++ s)) ≠ ([] : List Char) := by
      simp
    have h1 : ∀ (d : LocData) (e : List Char → Option (List Char)),
        rwScanO (locMatcher d e) 0 (pre ++ ('@' :: (lc "Damage[" ++ s)))
          = some (pre ++ ('@' :: (lc "Damage[" ++ s))) :=
      fun d e => rwScanO_id_single _ _ (fun t ht => locMatcher_trigger d e t ht) pre _ hpre hr
        (locMatcher_trigger d e _ (hpm (lc "@Localize[") (by decide) (by decide)))
    have h2 : rwScan compendiumMatcher 0 (pre ++ ('@' :: (lc "Damage[" ++ s)))
        = pre ++ ('@' :: (lc "Damage[" ++ s)) :=
      rwScan_id_single _ _ (fun t ht => compendiumMatcher_trigger t ht) pre _ hpre hr
        (compendiumMatcher_trigger _ (hpm (lc "@Compendium[") (by decide) (by decide)))
    have h3 : rwScan (uuidJournalMatcher pids) 0 (pre ++ ('@' :: (lc "Damage[" ++ s)))
        = pre ++ ('@' :: (lc "Damage[" ++ s)) :=
      rwScan_id_single _ _ (fun t ht => uuidJournalMatcher_trigger pids t ht) pre _ hpre hr
        (uuidJournalMatcher_trigger pids _ (hpm (lc "@UUID[JournalEntry.") (by decide) (by decide)))
    have h4 : rwScan uuidActorMatcher 0 (pre ++ ('@' :: (lc "Damage[" ++ s)))
        = pre ++ ('@' :: (lc "Damage[" ++ s)) :=
      rwScan_id_single _ _ (fun t ht => uuidActorMatcher_trigger t ht) pre _ hpre hr
        (uuidActorMatcher_trigger _ (hpm (lc "@UUID[Actor.") (by decide) (by decide)))
    have h5 : rwScan uuidItemMatcher 0 (pre ++ ('@' :: (lc "Damage[" ++ s)))
        = pre ++ ('@' :: (lc "Damage[" ++ s)) :=
      rwScan_id_single _ _ (fun t ht => uuidItemMatcher_trigger t ht) pre _ hpre hr
        (uuidItemMatcher_trigger _ (hpm (lc "@UUID[") (by decide) (by decide)))
    have h6 : rwScan uuidGenericMatcher 0 (pre ++ ('@' :: (lc "Damage[" ++ s)))
        = pre ++ ('@' :: (lc "Damage[" ++ s)) :=
      rwScan_id_single _ _ (fun t ht => uuidGenericMatcher_trigger t ht) pre _ hpre hr
        (uuidGenericMatcher_trigger _ (hpm (lc "@UUID[") (by decide) (by decide)))
    have h7 : ∀ ld : Option LocData, rwScan (traitMatcher ld) 0 (pre ++ ('@' :: (lc "Damage[" ++ s)))
        = pre ++ ('@' :: (lc "Damage[" ++ s)) :=
      fun ld => rwScan_id_single _ _ (fun t ht => traitMatcher_trigger ld t ht) pre _ hpre hr
        (traitMatcher_trigger ld _ (hpm (lc "@Trait") (by decide) (by decide)))
    have h8 : rwScan conditionMatcher 0 (pre ++ ('@' :: (lc "Damage[" ++ s)))
        = pre ++ ('@' :: (lc "Damage[" ++ s)) :=
      rwScan_id_single _ _ (fun t ht => conditionMatcher_trigger t ht) pre _ hpre hr
        (conditionMatcher_trigger _ (hpm (lc "@Condition[") (by decide) (by decide)))
    have h9 : parseAndReplace (lc "@Damage[") damageTr (pre ++ ('@' :: (lc "Damage[" ++ s)))
        = pre ++ ('@' :: (lc "Damage[" ++ s)) :=
      parseAndReplace_unterminated_frame (lc "Damage[") damageTr pre s hpre hs hnb
    have h10 : parseAndReplace (lc "@Check[") checkTr (pre ++ ('@' :: (lc "Damage[" ++ s)))
        = pre ++ ('@' :: (lc "Damage[" ++ s)) :=
      rwScan_id_single _ _ (fun t ht => tagMatcher_trigger (lc "@Check[") checkTr t ht) pre _ hpre hr
        (tagMatcher_trigger _ _ _ (hpm (lc "@Check[") (by decide) (by decide)))
    cases locData with
    | none => simp only [processFoundryTags, if_neg hne, h2, h3, h4, h5, h6, h7, h8, h9, h10]
    | some d => simp only [processFoundryTags, if_neg hne, h1, h2, h3, h4, h5, h6, h7, h8, h9, h10]
  · -- the @Check conjunct
    rw [hCs s]
    have hr : '@' ∉ lc "Check[" ++ s :=
      not_mem_append (show ('@' : Char) ∉ lc "Check[" by decide) hs
    have hpm : ∀ pat : List Char, pat.isPrefixOf (lc "@Check[") = false →
        (lc "@Check[").isPrefixOf pat = false →
        pat.isPrefixOf ('@' :: (lc "Check[" ++ s)) = false := by
      intro pat hp1 hp2
      exact isPrefixOf_false_frameAll pat (lc "@Check[") _ hp1 hp2
    have hne : pre ++ ('@' :: (lc "Check[" ++ s)) ≠ ([] : List Char) := by
      simp
    have h1 : ∀ (d : LocData) (e : List Char → Option (List Char)),
        rwScanO (locMatcher d e) 0 (pre ++ ('@' :: (lc "Check[" ++ s)))
          = some (pre ++ ('@' :: (lc "Check[" ++ s))) :=
      fun d e => rwScanO_id_single _ _ (fun t ht => locMatcher_trigger d e t ht) pre _ hpre hr
        (locMatcher_trigger d e _ (hpm (lc "@Localize[") (by decide) (by decide)))
    have h2 : rwScan compendiumMatcher 0 (pre ++ ('@' :: (lc "Check[" ++ s)))
        = pre ++ ('@' :: (lc "Check[" ++ s)) :=
      rwScan_id_single _ _ (fun t ht => compendiumMatcher_trigger t ht) pre _ hpre hr
        (compendiumMatcher_trigger _ (hpm (lc "@Compendium[") (by decide) (by decide)))
    have h3 : rwScan (uuidJournalMatcher pids) 0 (pre ++ ('@' :: (lc "Check[" ++ s)))
        = pre ++ ('@' :: (lc "Check[" ++ s)) :=
      rwScan_id_single _ _ (fun t ht => uuidJournalMatcher_trigger pids t ht) pre _ hpre hr
        (uuidJournalMatcher_trigger pids _ (hpm (lc "@UUID[JournalEntry.") (by decide) (by decide)))
    have h4 : rwScan uuidActorMatcher 0 (pre ++ ('@' :: (lc "Check[" ++ s)))
        = pre ++ ('@' :: (lc "Check[" ++ s)) :=
      rwScan_id_single _ _ (fun t ht => uuidActorMatcher_trigger t ht) pre _ hpre hr
        (uuidActorMatcher_trigger _ (hpm (lc "@UUID[Actor.") (by decide) (by decide)))
    have h5 : rwScan uuidItemMatcher 0 (pre ++ ('@' :: (lc "Check[" ++ s)))
        = pre ++ ('@' :: (lc "Check[" ++ s)) :=
      rwScan_id_single _ _ (fun t ht => uuidItemMatcher_trigger t ht) pre _ hpre hr
        (uuidItemMatcher_trigger _ (hpm (lc "@UUID[") (by decide) (by decide)))
    have h6 : rwScan uuidGenericMatcher 0 (pre ++ ('@' :: (lc "Check[" ++ s)))
        = pre ++ ('@' :: (lc "Check[" ++ s)) :=
      rwScan_id_single _ _ (fun t ht => uuidGenericMatcher_trigger t ht) pre _ hpre hr
        (uuidGenericMatcher_trigger _ (hpm (lc "@UUID[") (by decide) (by decide)))
    have h7 : ∀ ld : Option LocData, rwScan (traitMatcher ld) 0 (pre ++ ('@' :: (lc "Check[" ++ s)))
        = pre ++ ('@' :: (lc "Check[" ++ s)) :=
      fun ld => rwScan_id_single _ _ (fun t ht => traitMatcher_trigger ld t ht) pre _ hpre hr
        (traitMatcher_trigger ld _ (hpm (lc "@Trait") (by decide) (by decide)))
    have h8 : rwScan conditionMatcher 0 (pre ++ ('@' :: (lc "Check[" ++ s)))
        = pre ++ ('@' :: (lc "Check[" ++ s)) :=
      rwScan_id_single _ _ (fun t ht => conditionMatcher_trigger t ht) pre _ hpre hr
        (conditionMatcher_trigger _ (hpm (lc "@Condition[") (by decide) (by decide)))
    have h9 : parseAndReplace (lc "@Damage[") damageTr (pre ++ ('@' :: (lc "Check[" ++ s)))
        = pre ++ ('@' :: (lc "Check[" ++ s)) :=
      rwScan_id_single _ _ (fun t ht => tagMatcher_trigger (lc "@Damage[") damageTr t ht) pre _ hpre hr
        (tagMatcher_trigger _ _ _ (hpm (lc "@Damage[") (by decide) (by decide)))
    have h10 : parseAndReplace (lc "@Check[") checkTr (pre ++ ('@' :: (lc "Check[" ++ s)))
        = pre ++ ('@' :: (lc "Check[" ++ s)) :=
      parseAndReplace_unterminated_frame (lc "Check[") checkTr pre s hpre hs hnb
    cases locData with
    | none => simp only [processFoundryTags, if_neg hne, h2, h3, h4, h5, h6, h7, h8, h9, h10]
    | some d => simp only [processFoundryTags, if_neg hne, h1, h2, h3, h4, h5, h6, h7, h8, h9, h10]


/-- Claim C7, amended (check resolution policy): the pipe-delimited tokens
of `@Check[c]` are parsed into a key:value record with the positional
heuristic; when both `type` and `dc` are truthy the output is the normalized
compact label (optional `Basic_` prefix, capitalized type, `_DC<dc>`),
bold-wrapped, the explicit label being ignored; otherwise the source has no
intermediate best-effort reconstruction branch: the explicit label when
present and non-empty, else the raw argument (the `label || c` fallback of
the source), is emitted bold-wrapped.  Stated for an unlabeled and for a
labeled directive. -/
theorem C7_check_policy (pids : List (List Char)) (locData : Option LocData) (depth : Nat)
    (c L : List Char) (hat : '@' ∉ c) (hob : '[' ∉ c) (hcb : ']' ∉ c)
    (hLat : '@' ∉ L) (hLb : lbrace ∉ L) (hLr : rbrace ∉ L) :
    processFoundryTags (depth + 1) (lc "@Check[" ++ c ++ lc "]") pids locData
      = some (if truthyS (getKV (parseCheckValues c) (lc "type"))
                && truthyS (getKV (parseCheckValues c) (lc "dc")) then
          strongWrap ((if getKV (parseCheckValues c) (lc "basic") == some (lc "true")
              then lc "Basic_" else []) ++
            capitalizeList ((getKV (parseCheckValues c) (lc "type")).getD []) ++ lc "_DC" ++
            (getKV (parseCheckValues c) (lc "dc")).getD [])
        else strongWrap c)
    ∧ processFoundryTags (depth + 1)
        (lc "@Check[" ++ c ++ lc "]" ++ [lbrace] ++ L ++ [rbrace]) pids locData
      = some (if truthyS (getKV (parseCheckValues c) (lc "type"))
                && truthyS (getKV (parseCheckValues c) (lc "dc")) then
          strongWrap ((if getKV (parseCheckValues c) (lc "basic") == some (lc "true")
              then lc "Basic_" else []) ++
            capitalizeList ((getKV (parseCheckValues c) (lc "type")).getD []) ++ lc "_DC" ++
            (getKV (parseCheckValues c) (lc "dc")).getD [])
        else strongWrap (if L = [] then c else L)) := by
  constructor
  · have hnoat : '@' ∉ lc "Check[" ++ c ++ lc "]" :=
      not_mem_append (not_mem_append (show ('@' : Char) ∉ lc "Check[" by decide) hat)
        (show ('@' : Char) ∉ lc "]" by decide)
    have hin : lc "@Check[" ++ c ++ lc "]" = '@' :: (lc "Check[" ++ c ++ lc "]") := rfl
    have hne : lc "@Check[" ++ c ++ lc "]" ≠ ([] : List Char) := by
      rw [hin]; exact List.cons_ne_nil _ _
    have hpm : ∀ pat : List Char, pat.isPrefixOf (lc "@Check[") = false →
        (lc "@Check[").isPrefixOf pat = false →
        pat.isPrefixOf ('@' :: (lc "Check[" ++ c ++ lc "]")) = false := by
      intro pat hp1 hp2
      rw [← hin, List.append_assoc]
      exact isPrefixOf_false_frameAll pat (lc "@Check[") _ hp1 hp2
    have h1 : ∀ (d : LocData) (e : List Char → Option (List Char)),
        rwScanO (locMatcher d e) 0 (lc "@Check[" ++ c ++ lc "]")
          = some (lc "@Check[" ++ c ++ lc "]") := by
      intro d e
      rw [hin]
      exact rwScanO_id_headat _ _ (fun t ht => locMatcher_trigger d e t ht) _ hnoat
        (hpm (lc "@Localize[") (by decide) (by decide))
    have h2 : rwScan compendiumMatcher 0 (lc "@Check[" ++ c ++ lc "]")
        = lc "@Check[" ++ c ++ lc "]" := by
      rw [hin]
      exact rwScan_id_headat _ _ (fun t ht => compendiumMatcher_trigger t ht) _ hnoat
        (hpm (lc "@Compendium[") (by decide) (by decide))
    have h3 : rwScan (uuidJournalMatcher pids) 0 (lc "@Check[" ++ c ++ lc "]")
        = lc "@Check[" ++ c ++ lc "]" := by
      rw [hin]
      exact rwScan_id_headat _ _ (fun t ht => uuidJournalMatcher_trigger pids t ht) _ hnoat
        (hpm (lc "@UUID[JournalEntry.") (by decide) (by decide))
    have h4 : rwScan uuidActorMatcher 0 (lc "@Check[" ++ c ++ lc "]")
        = lc "@Check[" ++ c ++ lc "]" := by
      rw [hin]
      exact rwScan_id_headat _ _ (fun t ht => uuidActorMatcher_trigger t ht) _ hnoat
        (hpm (lc "@UUID[Actor.") (by decide) (by decide))
    have h5 : rwScan uuidItemMatcher 0 (lc "@Check[" ++ c ++ lc "]")
        = lc "@Check[" ++ c ++ lc "]" := by
      rw [hin]
      exact rwScan_id_headat _ _ (fun t ht => uuidItemMatcher_trigger t ht) _ hnoat
        (hpm (lc "@UUID[") (by decide) (by decide))
    have h6 : rwScan uuidGenericMatcher 0 (lc "@Check[" ++ c ++ lc "]")
        = lc "@Check[" ++ c ++ lc "]" := by
      rw [hin]
      exact rwScan_id_headat _ _ (fun t ht => uuidGenericMatcher_trigger t ht) _ hnoat
        (hpm (lc "@UUID[") (by decide) (by decide))
    have h7 : ∀ ld : Option LocData, rwScan (traitMatcher ld) 0 (lc "@Check[" ++ c ++ lc "]")
        = lc "@Check[" ++ c ++ lc "]" := by
      intro ld
      rw [hin]
      exact rwScan_id_headat _ _ (fun t ht => traitMatcher_trigger ld t ht) _ hnoat
        (hpm (lc "@Trait") (by decide) (by decide))
    have h8 : rwScan conditionMatcher 0 (lc "@Check[" ++ c ++ lc "]")
        = lc "@Check[" ++ c ++ lc "]" := by
      rw [hin]
      exact rwScan_id_headat _ _ (fun t ht => conditionMatcher_trigger t ht) _ hnoat
        (hpm (lc "@Condition[") (by decide) (by decide))
    have h9 : parseAndReplace (lc "@Damage[") damageTr (lc "@Check[" ++ c ++ lc "]")
        = lc "@Check[" ++ c ++ lc "]" := by
      rw [hin]
      exact rwScan_id_headat _ _ (fun t ht => tagMatcher_trigger (lc "@Damage[") damageTr t ht) _ hnoat
        (hpm (lc "@Damage[") (by decide) (by decide))
    have hm10 : tagMatcher (lc "@Check[") checkTr (lc "@Check[" ++ c ++ lc "]")
        = some (checkTr c none, []) :=
      tagMatcher_hit (lc "@Check[") checkTr c (nestOk_of_no_brackets c hob hcb)
    have h10 : parseAndReplace (lc "@Check[") checkTr (lc "@Check[" ++ c ++ lc "]")
        = checkTr c none := by
      rw [hin] at hm10 ⊢
      exact rwScan_hit_all _ '@' _ _ hm10
    have hfinal : checkTr c none
        = (if truthyS (getKV (parseCheckValues c) (lc "type"))
                  && truthyS (getKV (parseCheckValues c) (lc "dc")) then
            strongWrap ((if getKV (parseCheckValues c) (lc "basic") == some (lc "true")
                then lc "Basic_" else []) ++
              capitalizeList ((getKV (parseCheckValues c) (lc "type")).getD []) ++ lc "_DC" ++
              (getKV (parseCheckValues c) (lc "dc")).getD [])
          else strongWrap c) := by
      simp only [checkTr]
    cases locData with
    | none => simp only [processFoundryTags, if_neg hne, h2, h3, h4, h5, h6, h7, h8, h9, h10, hfinal]
    | some d => simp only [processFoundryTags, if_neg hne, h1, h2, h3, h4, h5, h6, h7, h8, h9, h10, hfinal]
  · have hnoat : '@' ∉ lc "Check[" ++ c ++ lc "]" ++ [lbrace] ++ L ++ [rbrace] :=
      not_mem_append (not_mem_append (not_mem_append (not_mem_append (not_mem_append
        (show ('@' : Char) ∉ lc "Check[" by decide) hat)
          (show ('@' : Char) ∉ lc "]" by decide))
            (show ('@' : Char) ∉ [lbrace] by decide)) hLat)
              (show ('@' : Char) ∉ [rbrace] by decide)
    have hin : lc "@Check[" ++ c ++ lc "]" ++ [lbrace] ++ L ++ [rbrace]
        = '@' :: (lc "Check[" ++ c ++ lc "]" ++ [lbrace] ++ L ++ [rbrace]) := rfl
    have hne : lc "@Check[" ++ c ++ lc "]" ++ [lbrace] ++ L ++ [rbrace] ≠ ([] : List Char) := by
      rw [hin]; exact List.cons_ne_nil _ _
    have hpm : ∀ pat : List Char, pat.isPrefixOf (lc "@Check[") = false →
        (lc "@Check[").isPrefixOf pat = false →
        pat.isPrefixOf ('@' :: (lc "Check[" ++ c ++ lc "]" ++ [lbrace] ++ L ++ [rbrace])) = false := by
      intro pat hp1 hp2
      rw [← hin]
      simp only [List.append_assoc]
      exact isPrefixOf_false_frameAll pat (lc "@Check[") _ hp1 hp2
    have h1 : ∀ (d : LocData) (e : List Char → Option (List Char)),
        rwScanO (locMatcher d e) 0 (lc "@Check[" ++ c ++ lc "]" ++ [lbrace] ++ L ++ [rbrace])
          = some (lc "@Check[" ++ c ++ lc "]" ++ [lbrace] ++ L ++ [rbrace]) := by
      intro d e
      rw [hin]
      exact rwScanO_id_headat _ _ (fun t ht => locMatcher_trigger d e t ht) _ hnoat
        (hpm (lc "@Localize[") (by decide) (by decide))
    have h2 : rwScan compendiumMatcher 0 (lc "@Check[" ++ c ++ lc "]" ++ [lbrace] ++ L ++ [rbrace])
        = lc "@Check[" ++ c ++ lc "]" ++ [lbrace] ++ L ++ [rbrace] := by
      rw [hin]
      exact rwScan_id_headat _ _ (fun t ht => compendiumMatcher_trigger t ht) _ hnoat
        (hpm (lc "@Compendium[") (by decide) (by decide))
    have h3 : rwScan (uuidJournalMatcher pids) 0 (lc "@Check[" ++ c ++ lc "]" ++ [lbrace] ++ L ++ [rbrace])
        = lc "@Check[" ++ c ++ lc "]" ++ [lbrace] ++ L ++ [rbrace] := by
      rw [hin]
      exact rwScan_id_headat _ _ (fun t ht => uuidJournalMatcher_trigger pids t ht) _ hnoat
        (hpm (lc "@UUID[JournalEntry.") (by decide) (by decide))
    have h4 : rwScan uuidActorMatcher 0 (lc "@Check[" ++ c ++ lc "]" ++ [lbrace] ++ L ++ [rbrace])
        = lc "@Check[" ++ c ++ lc "]" ++ [lbrace] ++ L ++ [rbrace] := by
      rw [hin]
      exact rwScan_id_headat _ _ (fun t ht => uuidActorMatcher_trigger t ht) _ hnoat
        (hpm (lc "@UUID[Actor.") (by decide) (by decide))
    have h5 : rwScan uuidItemMatcher 0 (lc "@Check[" ++ c ++ lc "]" ++ [lbrace] ++ L ++ [rbrace])
        = lc "@Check[" ++ c ++ lc "]" ++ [lbrace] ++ L ++ [rbrace] := by
      rw [hin]
      exact rwScan_id_headat _ _ (fun t ht => uuidItemMatcher_trigger t ht) _ hnoat
        (hpm (lc "@UUID[") (by decide) (by decide))
    have h6 : rwScan uuidGenericMatcher 0 (lc "@Check[" ++ c ++ lc "]" ++ [lbrace] ++ L ++ [rbrace])
        = lc "@Check[" ++ c ++ lc "]" ++ [lbrace] ++ L ++ [rbrace] := by
      rw [hin]
      exact rwScan_id_headat _ _ (fun t ht => uuidGenericMatcher_trigger t ht) _ hnoat
        (hpm (lc "@UUID[") (by decide) (by decide))
    have h7 : ∀ ld : Option LocData,
        rwScan (traitMatcher ld) 0 (lc "@Check[" ++ c ++ lc "]" ++ [lbrace] ++ L ++ [rbrace])
        = lc "@Check[" ++ c ++ lc "]" ++ [lbrace] ++ L ++ [rbrace] := by
      intro ld
      rw [hin]
      exact rwScan_id_headat _ _ (fun t ht => traitMatcher_trigger ld t ht) _ hnoat
        (hpm (lc "@Trait") (by decide) (by decide))
    have h8 : rwScan conditionMatcher 0 (lc "@Check[" ++ c ++ lc "]" ++ [lbrace] ++ L ++ [rbrace])
        = lc "@Check[" ++ c ++ lc "]" ++ [lbrace] ++ L ++ [rbrace] := by
      rw [hin]
      exact rwScan_id_headat _ _ (fun t ht => conditionMatcher_trigger t ht) _ hnoat
        (hpm (lc "@Condition[") (by decide) (by decide))
    have h9 : parseAndReplace (lc "@Damage[") damageTr
        (lc "@Check[" ++ c ++ lc "]" ++ [lbrace] ++ L ++ [rbrace])
        = lc "@Check[" ++ c ++ lc "]" ++ [lbrace] ++ L ++ [rbrace] := by
      rw [hin]
      exact rwScan_id_headat _ _ (fun t ht => tagMatcher_trigger (lc "@Damage[") damageTr t ht) _ hnoat
        (hpm (lc "@Damage[") (by decide) (by decide))
    have hm10 : tagMatcher (lc "@Check[") checkTr
        (lc "@Check[" ++ c ++ lc "]" ++ [lbrace] ++ L ++ [rbrace])
        = some (checkTr c (some L), []) :=
      tagMatcher_hit_label (lc "@Check[") checkTr c L (nestOk_of_no_brackets c hob hcb) hLb hLr
    have h10 : parseAndReplace (lc "@Check[") checkTr
        (lc "@Check[" ++ c ++ lc "]" ++ [lbrace] ++ L ++ [rbrace])
        = checkTr c (some L) := by
      rw [hin] at hm10 ⊢
      exact rwScan_hit_all _ '@' _ _ hm10
    have hfinal : checkTr c (some L)
        = (if truthyS (getKV (parseCheckValues c) (lc "type"))
                  && truthyS (getKV (parseCheckValues c) (lc "dc")) then
            strongWrap ((if getKV (parseCheckValues c) (lc "basic") == some (lc "true")
                then lc "Basic_" else []) ++
              capitalizeList ((getKV (parseCheckValues c) (lc "type")).getD []) ++ lc "_DC" ++
              (getKV (parseCheckValues c) (lc "dc")).getD [])
          else strongWrap (if L = [] then c else L)) := by
      simp only [checkTr]
    cases locData with
    | none => simp only [processFoundryTags, if_neg hne, h2, h3, h4, h5, h6, h7, h8, h9, h10, hfinal]
    | some d => simp only [processFoundryTags, if_neg hne, h1, h2, h3, h4, h5, h6, h7, h8, h9, h10, hfinal]

/-- Claim C8, amended (trait label chain): the display label of a Trait
directive is the explicit brace-delimited label when one is supplied, and
otherwise the `localize` result for the key `PF2E.Trait<PascalSlug>` — the
localized value when the dictionary resolves the key, and otherwise
`localize`'s own fallback (the capitalized last key segment with no
dictionary, the whole key with a dictionary that lacks it); the bare
PascalCase slug is never used.  Stated for `@Trait[slug]`,
`@Trait[slug]{L}` and the `@Traits[slug]` spelling. -/
theorem C8_trait_label (pids : List (List Char)) (locData : Option LocData) (depth : Nat)
    (slug L : List Char) (hsb : ']' ∉ slug) (hat : '@' ∉ slug)
    (hL : ∀ ch ∈ L, ch ≠ rbrace ∧ ch ≠ '@' ∧ isDot ch = true)
    (hlab : '@' ∉ localize locData (lc "PF2E.Trait" ++ slugToPascalCase slug) [])
    (hdesc : '@' ∉ escapeQuotes (stripTags (traitDescription locData (slugToPascalCase slug)))) :
    processFoundryTags (depth + 1) (lc "@Trait[" ++ slug ++ lc "]") pids locData
      = some (lc "<span class=\"trait-tooltip\" title=\""
          ++ escapeQuotes (stripTags (traitDescription locData (slugToPascalCase slug)))
          ++ lc "\"><code class=\"trait-code\">"
          ++ localize locData (lc "PF2E.Trait" ++ slugToPascalCase slug) []
          ++ lc "</code></span>")
    ∧ processFoundryTags (depth + 1)
        (lc "@Trait[" ++ slug ++ lc "]" ++ [lbrace] ++ L ++ [rbrace]) pids locData
      = some (lc "<span class=\"trait-tooltip\" title=\""
          ++ escapeQuotes (stripTags (traitDescription locData (slugToPascalCase slug)))
          ++ lc "\"><code class=\"trait-code\">"
          ++ L
          ++ lc "</code></span>")
    ∧ processFoundryTags (depth + 1) (lc "@Traits[" ++ slug ++ lc "]") pids locData
      = some (lc "<span class=\"trait-tooltip\" title=\""
          ++ escapeQuotes (stripTags (traitDescription locData (slugToPascalCase slug)))
          ++ lc "\"><code class=\"trait-code\">"
          ++ localize locData (lc "PF2E.Trait" ++ slugToPascalCase slug) []
          ++ lc "</code></span>") := by
  have hLat : '@' ∉ L := fun hc => ((hL _ hc).2.1) rfl
  refine ⟨?_, ?_, ?_⟩
  · have hnoat : '@' ∉ lc "Trait[" ++ slug ++ lc "]" :=
      not_mem_append (not_mem_append (show ('@' : Char) ∉ lc "Trait[" by decide) hat)
        (show ('@' : Char) ∉ lc "]" by decide)
    have hin : lc "@Trait[" ++ slug ++ lc "]" = '@' :: (lc "Trait[" ++ slug ++ lc "]") := rfl
    have hne : lc "@Trait[" ++ slug ++ lc "]" ≠ ([] : List Char) := by
      rw [hin]; exact List.cons_ne_nil _ _
    have hpm : ∀ pat : List Char, pat.isPrefixOf (lc "@Trait[") = false →
        (lc "@Trait[").isPrefixOf pat = false →
        pat.isPrefixOf ('@' :: (lc "Trait[" ++ slug ++ lc "]")) = false := by
      intro pat hp1 hp2
      rw [← hin, List.append_assoc]
      exact isPrefixOf_false_frameAll pat (lc "@Trait[") _ hp1 hp2
    have h1 : ∀ (d : LocData) (e : List Char → Option (List Char)),
        rwScanO (locMatcher d e) 0 (lc "@Trait[" ++ slug ++ lc "]")
          = some (lc "@Trait[" ++ slug ++ lc "]") := by
      intro d e
      rw [hin]
      exact rwScanO_id_headat _ _ (fun t ht => locMatcher_trigger d e t ht) _ hnoat
        (hpm (lc "@Localize[") (by decide) (by decide))
    have h2 : rwScan compendiumMatcher 0 (lc "@Trait[" ++ slug ++ lc "]")
        = lc "@Trait[" ++ slug ++ lc "]" := by
      rw [hin]
      exact rwScan_id_headat _ _ (fun t ht => compendiumMatcher_trigger t ht) _ hnoat
        (hpm (lc "@Compendium[") (by decide) (by decide))
    have h3 : rwScan (uuidJournalMatcher pids) 0 (lc "@Trait[" ++ slug ++ lc "]")
        = lc "@Trait[" ++ slug ++ lc "]" := by
      rw [hin]
      exact rwScan_id_headat _ _ (fun t ht => uuidJournalMatcher_trigger pids t ht) _ hnoat
        (hpm (lc "@UUID[JournalEntry.") (by decide) (by decide))
    have h4 : rwScan uuidActorMatcher 0 (lc "@Trait[" ++ slug ++ lc "]")
        = lc "@Trait[" ++ slug ++ lc "]" := by
      rw [hin]
      exact rwScan_id_headat _ _ (fun t ht => uuidActorMatcher_trigger t ht) _ hnoat
        (hpm (lc "@UUID[Actor.") (by decide) (by decide))
    have h5 : rwScan uuidItemMatcher 0 (lc "@Trait[" ++ slug ++ lc "]")
        = lc "@Trait[" ++ slug ++ lc "]" := by
      rw [hin]
      exact rwScan_id_headat _ _ (fun t ht => uuidItemMatcher_trigger t ht) _ hnoat
        (hpm (lc "@UUID[") (by decide) (by decide))
    have h6 : rwScan uuidGenericMatcher 0 (lc "@Trait[" ++ slug ++ lc "]")
        = lc "@Trait[" ++ slug ++ lc "]" := by
      rw [hin]
      exact rwScan_id_headat _ _ (fun t ht => uuidGenericMatcher_trigger t ht) _ hnoat
        (hpm (lc "@UUID[") (by decide) (by decide))
    have hm7 : traitMatcher locData (lc "@Trait[" ++ slug ++ lc "]")
        = some (traitReplace locData slug none, []) :=
      traitMatcher_hit locData slug (fun ch hc he => hsb (he ▸ hc))
    have h7 : rwScan (traitMatcher locData) 0 (lc "@Trait[" ++ slug ++ lc "]")
        = traitReplace locData slug none := by
      rw [hin] at hm7 ⊢
      exact rwScan_hit_all _ '@' _ _ hm7
    have hspanat : '@' ∉ traitReplace locData slug none :=
      not_mem_append (not_mem_append (not_mem_append (not_mem_append
        (show ('@' : Char) ∉ lc "<span class=\"trait-tooltip\" title=\"" by decide) hdesc)
        (show ('@' : Char) ∉ lc "\"><code class=\"trait-code\">" by decide)) hlab)
        (show ('@' : Char) ∉ lc "</code></span>" by decide)
    have h8 : rwScan conditionMatcher 0 (traitReplace locData slug none)
        = traitReplace locData slug none := conditionStage_noat _ hspanat
    have h9 : parseAndReplace (lc "@Damage[") damageTr (traitReplace locData slug none)
        = traitReplace locData slug none := damageStage_noat _ hspanat
    have h10 : parseAndReplace (lc "@Check[") checkTr (traitReplace locData slug none)
        = traitReplace locData slug none := checkStage_noat _ hspanat
    have hfinal : traitReplace locData slug none
        = lc "<span class=\"trait-tooltip\" title=\""
            ++ escapeQuotes (stripTags (traitDescription locData (slugToPascalCase slug)))
            ++ lc "\"><code class=\"trait-code\">"
            ++ localize locData (lc "PF2E.Trait" ++ slugToPascalCase slug) []
            ++ lc "</code></span>" := rfl
    cases locData with
    | none =>
      simp only [processFoundryTags, if_neg hne, h2, h3, h4, h5, h6, h7, h8, h9, h10]
      rw [hfinal]
    | some d =>
      simp only [processFoundryTags, if_neg hne, h1, h2, h3, h4, h5, h6, h7, h8, h9, h10]
      rw [hfinal]
  · have hnoat : '@' ∉ lc "Trait[" ++ slug ++ lc "]" ++ [lbrace] ++ L ++ [rbrace] :=
      not_mem_append (not_mem_append (not_mem_append (not_mem_append (not_mem_append
        (show ('@' : Char) ∉ lc "Trait[" by decide) hat)
          (show ('@' : Char) ∉ lc "]" by decide))
            (show ('@' : Char) ∉ [lbrace] by decide)) hLat)
              (show ('@' : Char) ∉ [rbrace] by decide)
    have hin : lc "@Trait[" ++ slug ++ lc "]" ++ [lbrace] ++ L ++ [rbrace]
        = '@' :: (lc "Trait[" ++ slug ++ lc "]" ++ [lbrace] ++ L ++ [rbrace]) := rfl
    have hne : lc "@Trait[" ++ slug ++ lc "]" ++ [lbrace] ++ L ++ [rbrace] ≠ ([] : List Char) := by
      rw [hin]; exact List.cons_ne_nil _ _
    have hpm : ∀ pat : List Char, pat.isPrefixOf (lc "@Trait[") = false →
        (lc "@Trait[").isPrefixOf pat = false →
        pat.isPrefixOf ('@' :: (lc "Trait[" ++ slug ++ lc "]" ++ [lbrace] ++ L ++ [rbrace])) = false := by
      intro pat hp1 hp2
      rw [← hin]
      simp only [List.append_assoc]
      exact isPrefixOf_false_frameAll pat (lc "@Trait[") _ hp1 hp2
    have h1 : ∀ (d : LocData) (e : List Char → Option (List Char)),
        rwScanO (locMatcher d e) 0 (lc "@Trait[" ++ slug ++ lc "]" ++ [lbrace] ++ L ++ [rbrace])
          = some (lc "@Trait[" ++ slug ++ lc "]" ++ [lbrace] ++ L ++ [rbrace]) := by
      intro d e
      rw [hin]
      exact rwScanO_id_headat _ _ (fun t ht => locMatcher_trigger d e t ht) _ hnoat
        (hpm (lc "@Localize[") (by decide) (by decide))
    have h2 : rwScan compendiumMatcher 0 (lc "@Trait[" ++ slug ++ lc "]" ++ [lbrace] ++ L ++ [rbrace])
        = lc "@Trait[" ++ slug ++ lc "]" ++ [lbrace] ++ L ++ [rbrace] := by
      rw [hin]
      exact rwScan_id_headat _ _ (fun t ht => compendiumMatcher_trigger t ht) _ hnoat
        (hpm (lc "@Compendium[") (by decide) (by decide))
    have h3 : rwScan (uuidJournalMatcher pids) 0
        (lc "@Trait[" ++ slug ++ lc "]" ++ [lbrace] ++ L ++ [rbrace])
        = lc "@Trait[" ++ slug ++ lc "]" ++ [lbrace] ++ L ++ [rbrace] := by
      rw [hin]
      exact rwScan_id_headat _ _ (fun t ht => uuidJournalMatcher_trigger pids t ht) _ hnoat
        (hpm (lc "@UUID[JournalEntry.") (by decide) (by decide))
    have h4 : rwScan uuidActorMatcher 0 (lc "@Trait[" ++ slug ++ lc "]" ++ [lbrace] ++ L ++ [rbrace])
        = lc "@Trait[" ++ slug ++ lc "]" ++ [lbrace] ++ L ++ [rbrace] := by
      rw [hin]
      exact rwScan_id_headat _ _ (fun t ht => uuidActorMatcher_trigger t ht) _ hnoat
        (hpm (lc "@UUID[Actor.") (by decide) (by decide))
    have h5 : rwScan uuidItemMatcher 0 (lc "@Trait[" ++ slug ++ lc "]" ++ [lbrace] ++ L ++ [rbrace])
        = lc "@Trait[" ++ slug ++ lc "]" ++ [lbrace] ++ L ++ [rbrace] := by
      rw [hin]
      exact rwScan_id_headat _ _ (fun t ht => uuidItemMatcher_trigger t ht) _ hnoat
        (hpm (lc "@UUID[") (by decide) (by decide))
    have h6 : rwScan uuidGenericMatcher 0 (lc "@Trait[" ++ slug ++ lc "]" ++ [lbrace] ++ L ++ [rbrace])
        = lc "@Trait[" ++ slug ++ lc "]" ++ [lbrace] ++ L ++ [rbrace] := by
      rw [hin]
      exact rwScan_id_headat _ _ (fun t ht => uuidGenericMatcher_trigger t ht) _ hnoat
        (hpm (lc "@UUID[") (by decide) (by decide))
    have hm7 : traitMatcher locData (lc "@Trait[" ++ slug ++ lc "]" ++ [lbrace] ++ L ++ [rbrace])
        = some (traitReplace locData slug (some L), []) :=
      traitMatcher_hit_label locData slug L (fun ch hc he => hsb (he ▸ hc))
        (fun ch hc => ⟨(hL ch hc).1, (hL ch hc).2.2⟩)
    have h7 : rwScan (traitMatcher locData) 0
        (lc "@Trait[" ++ slug ++ lc "]" ++ [lbrace] ++ L ++ [rbrace])
        = traitReplace locData slug (some L) := by
      rw [hin] at hm7 ⊢
      exact rwScan_hit_all _ '@' _ _ hm7
    have hspanat : '@' ∉ traitReplace locData slug (some L) :=
      not_mem_append (not_mem_append (not_mem_append (not_mem_append
        (show ('@' : Char) ∉ lc "<span class=\"trait-tooltip\" title=\"" by decide) hdesc)
        (show ('@' : Char) ∉ lc "\"><code class=\"trait-code\">" by decide)) hLat)
        (show ('@' : Char) ∉ lc "</code></span>" by decide)
    have h8 : rwScan conditionMatcher 0 (traitReplace locData slug (some L))
        = traitReplace locData slug (some L) := conditionStage_noat _ hspanat
    have h9 : parseAndReplace (lc "@Damage[") damageTr (traitReplace locData slug (some L))
        = traitReplace locData slug (some L) := damageStage_noat _ hspanat
    have h10 : parseAndReplace (lc "@Check[") checkTr (traitReplace locData slug (some L))
        = traitReplace locData slug (some L) := checkStage_noat _ hspanat
    have hfinal : traitReplace locData slug (some L)
        = lc "<span class=\"trait-tooltip\" title=\""
            ++ escapeQuotes (stripTags (traitDescription locData (slugToPascalCase slug)))
            ++ lc "\"><code class=\"trait-code\">"
            ++ L
            ++ lc "</code></span>" := rfl
    cases locData with
    | none =>
      simp only [processFoundryTags, if_neg hne, h2, h3, h4, h5, h6, h7, h8, h9, h10]
      rw [hfinal]
    | some d =>
      simp only [processFoundryTags, if_neg hne, h1, h2, h3, h4, h5, h6, h7, h8, h9, h10]
      rw [hfinal]
  · have hnoat : '@' ∉ lc "Traits[" ++ slug ++ lc "]" :=
      not_mem_append (not_mem_append (show ('@' : Char) ∉ lc "Traits[" by decide) hat)
        (show ('@' : Char) ∉ lc "]" by decide)
    have hin : lc "@Traits[" ++ slug ++ lc "]" = '@' :: (lc "Traits[" ++ slug ++ lc "]") := rfl
    have hne : lc "@Traits[" ++ slug ++ lc "]" ≠ ([] : List Char) := by
      rw [hin]; exact List.cons_ne_nil _ _
    have hpm : ∀ pat : List Char, pat.isPrefixOf (lc "@Traits[") = false →
        (lc "@Traits[").isPrefixOf pat = false →
        pat.isPrefixOf ('@' :: (lc "Traits[" ++ slug ++ lc "]")) = false := by
      intro pat hp1 hp2
      rw [← hin, List.append_assoc]
      exact isPrefixOf_false_frameAll pat (lc "@Traits[") _ hp1 hp2
    have h1 : ∀ (d : LocData) (e : List Char → Option (List Char)),
        rwScanO (locMatcher d e) 0 (lc "@Traits[" ++ slug ++ lc "]")
          = some (lc "@Traits[" ++ slug ++ lc "]") := by
      intro d e
      rw [hin]
      exact rwScanO_id_headat _ _ (fun t ht => locMatcher_trigger d e t ht) _ hnoat
        (hpm (lc "@Localize[") (by decide) (by decide))
    have h2 : rwScan compendiumMatcher 0 (lc "@Traits[" ++ slug ++ lc "]")
        = lc "@Traits[" ++ slug ++ lc "]" := by
      rw [hin]
      exact rwScan_id_headat _ _ (fun t ht => compendiumMatcher_trigger t ht) _ hnoat
        (hpm (lc "@Compendium[") (by decide) (by decide))
    have h3 : rwScan (uuidJournalMatcher pids) 0 (lc "@Traits[" ++ slug ++ lc "]")
        = lc "@Traits[" ++ slug ++ lc "]" := by
      rw [hin]
      exact rwScan_id_headat _ _ (fun t ht => uuidJournalMatcher_trigger pids t ht) _ hnoat
        (hpm (lc "@UUID[JournalEntry.") (by decide) (by decide))
    have h4 : rwScan uuidActorMatcher 0 (lc "@Traits[" ++ slug ++ lc "]")
        = lc "@Traits[" ++ slug ++ lc "]" := by
      rw [hin]
      exact rwScan_id_headat _ _ (fun t ht => uuidActorMatcher_trigger t ht) _ hnoat
        (hpm (lc "@UUID[Actor.") (by decide) (by decide))
    have h5 : rwScan uuidItemMatcher 0 (lc "@Traits[" ++ slug ++ lc "]")
        = lc "@Traits[" ++ slug ++ lc "]" := by
      rw [hin]
      exact rwScan_id_headat _ _ (fun t ht => uuidItemMatcher_trigger t ht) _ hnoat
        (hpm (lc "@UUID[") (by decide) (by decide))
    have h6 : rwScan uuidGenericMatcher 0 (lc "@Traits[" ++ slug ++ lc "]")
        = lc "@Traits[" ++ slug ++ lc "]" := by
      rw [hin]
      exact rwScan_id_headat _ _ (fun t ht => uuidGenericMatcher_trigger t ht) _ hnoat
        (hpm (lc "@UUID[") (by decide) (by decide))
    have hm7 : traitMatcher locData (lc "@Traits[" ++ slug ++ lc "]")
        = some (traitReplace locData slug none, []) :=
      traitMatcher_hit_s locData slug (fun ch hc he => hsb (he ▸ hc))
    have h7 : rwScan (traitMatcher locData) 0 (lc "@Traits[" ++ slug ++ lc "]")
        = traitReplace locData slug none := by
      rw [hin] at hm7 ⊢
      exact rwScan_hit_all _ '@' _ _ hm7
    have hspanat : '@' ∉ traitReplace locData slug none :=
      not_mem_append (not_mem_append (not_mem_append (not_mem_append
        (show ('@' : Char) ∉ lc "<span class=\"trait-tooltip\" title=\"" by decide) hdesc)
        (show ('@' : Char) ∉ lc "\"><code class=\"trait-code\">" by decide)) hlab)
        (show ('@' : Char) ∉ lc "</code></span>" by decide)
    have h8 : rwScan conditionMatcher 0 (traitReplace locData slug none)
        = traitReplace locData slug none := conditionStage_noat _ hspanat
    have h9 : parseAndReplace (lc "@Damage[") damageTr (traitReplace locData slug none)
        = traitReplace locData slug none := damageStage_noat _ hspanat
    have h10 : parseAndReplace (lc "@Check[") checkTr (traitReplace locData slug none)
        = traitReplace locData slug none := checkStage_noat _ hspanat
    have hfinal : traitReplace locData slug none
        = lc "<span class=\"trait-tooltip\" title=\""
            ++ escapeQuotes (stripTags (traitDescription locData (slugToPascalCase slug)))
            ++ lc "\"><code class=\"trait-code\">"
            ++ localize locData (lc "PF2E.Trait" ++ slugToPascalCase slug) []
            ++ lc "</code></span>" := rfl
    cases locData with
    | none =>
      simp only [processFoundryTags, if_neg hne, h2, h3, h4, h5, h6, h7, h8, h9, h10]
      rw [hfinal]
    | some d =>
      simp only [processFoundryTags, if_neg hne, h1, h2, h3, h4, h5, h6, h7, h8, h9, h10]
      rw [hfinal]


/-- A localization dictionary with a self-referential entry: the value of
key `A` is the directive `@Localize[A]` naming that same entry. -/
def selfRefDict : LocData := .obj [(lc "A", .str (lc "@Localize[A]"))]

/-- Non-termination of the source's Localize recursion, expressed over the
budgeted embedding: a transformation diverges when no recursion budget makes
it return. -/
def DivergesOn (content : List Char) (pageIds : List (List Char))
    (locData : Option LocData) : Prop :=
  ∀ depth : Nat, processFoundryTags depth content pageIds locData = none

/-- Claim C1 (failing input): on the self-referential dictionary, expanding
`@Localize[A]` recurses into itself forever — every recursion budget is
exhausted, so the source function, which has no budget, never returns.  This
contradicts the claimed totality of the transformer for self-referential
entries. -/
theorem C1_self_reference_diverges : DivergesOn (lc "@Localize[A]") [] (some selfRefDict) := by
  intro depth
  induction depth with
  | zero => rfl
  | succ k ih =>
    have hm : locMatcher selfRefDict (fun t => processFoundryTags k t [] (some selfRefDict))
        (lc "@Localize[A]") = some (none, []) := by
      have h1 : matchLocalize (lc "@Localize[A]") = some (lc "A", []) := by decide
      have h2 : resolvePath selfRefDict (jsTrim (lc "A")) = some (lc "@Localize[A]") := by decide
      simp [locMatcher, h1, h2, ih]
    have hscan : rwScanO (locMatcher selfRefDict
        (fun t => processFoundryTags k t [] (some selfRefDict))) 0 (lc "@Localize[A]") = none := by
      have hin : lc "@Localize[A]" = '@' :: lc "Localize[A]" := rfl
      rw [hin] at hm ⊢
      exact rwScanO_hit_none _ '@' _ _ hm
    simp only [processFoundryTags, if_neg (show ¬ (lc "@Localize[A]" = []) by decide), hscan]

/-- Claim C2 (Localize stage): an `@Localize[k]` occurrence (with an
`@`-free prefix before it) is replaced, when the trimmed key resolves, by
the result of recursively running the entire transformer on the resolved
string with the same context, and, when it does not resolve, by the
bold-wrapped trimmed key; in both cases scanning then continues on the text
after the directive. -/
theorem C2_localize_stage (d : LocData) (pids : List (List Char)) (depth : Nat)
    (pre k post : List Char)
    (hpre : '@' ∉ pre)
    (hk : ∀ c ∈ k, c ≠ ']' ∧ isDot c = true) :
    rwScanO (locMatcher d (fun t => processFoundryTags depth t pids (some d))) 0
        (pre ++ lc "@Localize[" ++ k ++ lc "]" ++ post)
      = (match resolvePath d (jsTrim k) with
         | some tr =>
           (processFoundryTags depth tr pids (some d)).bind (fun e =>
             (rwScanO (locMatcher d (fun t => processFoundryTags depth t pids (some d))) 0 post).map
               (fun r => pre ++ (e ++ r)))
         | none =>
           (rwScanO (locMatcher d (fun t => processFoundryTags depth t pids (some d))) 0 post).map
             (fun r => pre ++ (strongWrap (jsTrim k) ++ r))) := by
  have hassoc : pre ++ lc "@Localize[" ++ k ++ lc "]" ++ post
      = pre ++ (lc "@Localize[" ++ k ++ lc "]" ++ post) := by
    simp [List.append_assoc]
  rw [hassoc]
  have hmiss : ∀ a', a' <:+ pre → a' ≠ [] →
      locMatcher d (fun t => processFoundryTags depth t pids (some d))
        (a' ++ (lc "@Localize[" ++ k ++ lc "]" ++ post)) = none := by
    intro a' ha' hne'
    cases a' with
    | nil => exact absurd rfl hne'
    | cons c a'' =>
      refine locMatcher_trigger _ _ _ ?_
      have hc : c ∈ pre := mem_of_suffix ha' (by simp)
      exact not_isPrefixOf_of_head_ne _ _ (fun he => hpre (he ▸ hc))
  rw [rwScanO_append _ pre _ hmiss]
  have hm := locMatcher_hit d (fun t => processFoundryTags depth t pids (some d)) k post hk
  have hin : lc "@Localize[" ++ k ++ lc "]" ++ post
      = '@' :: (lc "Localize[" ++ k ++ lc "]" ++ post) := rfl
  rw [hin] at hm
  cases hres : resolvePath d (jsTrim k) with
  | some tr =>
    simp only [hres] at hm
    cases hexp : processFoundryTags depth tr pids (some d) with
    | none =>
      simp only [hexp] at hm
      rw [hin, rwScanO_hit_none _ '@' _ _ hm]
      simp [hexp]
    | some e =>
      simp only [hexp] at hm
      rw [hin, rwScanO_hit _ '@' _ (lc "Localize[" ++ k ++ lc "]") post e hm rfl]
      cases hpost : rwScanO (locMatcher d (fun t => processFoundryTags depth t pids (some d))) 0 post <;>
        simp [hexp, hpost]
  | none =>
    simp only [hres] at hm
    rw [hin, rwScanO_hit _ '@' _ (lc "Localize[" ++ k ++ lc "]") post (strongWrap (jsTrim k)) hm rfl]
    cases hpost : rwScanO (locMatcher d (fun t => processFoundryTags depth t pids (some d))) 0 post <;>
      simp [hpost]

/-- One unfolding of the pipeline at a positive recursion budget. -/
theorem processFoundryTags_succ (depth : Nat) (content : List Char)
    (pids : List (List Char)) (locData : Option LocData) (h : content ≠ []) :
    processFoundryTags (depth + 1) content pids locData =
      match (match locData with
             | none => some content
             | some d =>
               rwScanO (locMatcher d (fun t => processFoundryTags depth t pids locData)) 0 content) with
      | none => none
      | some r1 =>
        some (parseAndReplace (lc "@Check[") checkTr
          (parseAndReplace (lc "@Damage[") damageTr
            (rwScan conditionMatcher 0
              (rwScan (traitMatcher locData) 0
                (rwScan uuidGenericMatcher 0
                  (rwScan uuidItemMatcher 0
                    (rwScan uuidActorMatcher 0
                      (rwScan (uuidJournalMatcher pids) 0
                        (rwScan compendiumMatcher 0 r1))))))))) := by
  simp only [processFoundryTags, if_neg h]

/-- Claim C10 (empty-string localization values): when path resolution of
`k` succeeds with the empty string, `localize` returns the key itself (its
falsy-translation fallback), yet the `@Localize` directive stage, which only
tests for `undefined`, expands the directive to the empty string. -/
theorem C10_empty_value (d : LocData) (k : List Char) (pids : List (List Char)) (depth : Nat)
    (repl : List (List Char × List Char))
    (hk : ∀ c ∈ k, c ≠ ']' ∧ isDot c = true)
    (htrim : jsTrim k = k)
    (hres : resolvePath d k = some []) :
    localize (some d) k repl = k
    ∧ processFoundryTags (depth + 2) (lc "@Localize[" ++ k ++ lc "]") pids (some d) = some [] := by
  constructor
  · simp [localize, hres]
  · have hin : lc "@Localize[" ++ k ++ lc "]" = '@' :: (lc "Localize[" ++ k ++ lc "]") := rfl
    have hne : lc "@Localize[" ++ k ++ lc "]" ≠ ([] : List Char) := by
      rw [hin]; exact List.cons_ne_nil _ _
    have hexp : processFoundryTags (depth + 1) ([] : List Char) pids (some d) = some [] := by
      simp [processFoundryTags]
    have hm : locMatcher d (fun t => processFoundryTags (depth + 1) t pids (some d))
        (lc "@Localize[" ++ k ++ lc "]") = some (some [], []) := by
      have hl := locMatcher_hit d (fun t => processFoundryTags (depth + 1) t pids (some d)) k [] hk
      simp only [List.append_nil] at hl
      rw [hl]
      simp only [htrim, hres, hexp]
    have hscan : rwScanO (locMatcher d (fun t => processFoundryTags (depth + 1) t pids (some d))) 0
        (lc "@Localize[" ++ k ++ lc "]") = some [] := by
      rw [hin] at hm ⊢
      rw [rwScanO_hit _ '@' _ (lc "Localize[" ++ k ++ lc "]") [] [] hm (List.append_nil _).symm]
      rfl
    show processFoundryTags (depth + 1 + 1) (lc "@Localize[" ++ k ++ lc "]") pids (some d) = some []
    rw [processFoundryTags_succ (depth + 1) _ pids (some d) hne]
    simp only [hscan]
    rfl

/-- Concrete instance of the Localize-stage claim: dictionary `\x7bA: "B"\x7d`,
surrounding text, and a resolving key. -/
theorem C2_localize_stage_witness :
    rwScanO (locMatcher (.obj [(lc "A", .str (lc "B"))])
        (fun t => processFoundryTags 1 t [] (some (.obj [(lc "A", .str (lc "B"))])))) 0
        (lc "x " ++ lc "@Localize[" ++ lc "A" ++ lc "]" ++ lc "!")
      = some (lc "x B!") := by
  have h := C2_localize_stage (.obj [(lc "A", .str (lc "B"))]) [] 1 (lc "x ") (lc "A") (lc "!")
    (by decide) (by decide)
  exact h.trans (by decide)

/-- Concrete instance of the page-reference claim: the page id is in the
context's set, so the clickable anchor is emitted. -/
theorem C3_page_reference_witness :
    processFoundryTags 1
        (lc "@UUID[JournalEntry." ++ lc "J" ++ lc ".JournalEntryPage." ++ lc "p1"
          ++ rbLb ++ lc "Txt" ++ [rbrace])
        [lc "p1"] none
      = some (pageAnchor (lc "p1") (lc "Txt")) := by
  have h := C3_page_reference [lc "p1"] none 0 (lc "J") (lc "p1") (lc "Txt")
    (by decide) (by decide) (by decide)
  exact h.trans (by decide)

/-- Concrete instance of the cross-journal claim: page `p1` belongs to the
other journal `J2` and also to the current journal's page set, and the
cross-journal marker still wins. -/
theorem C4_cross_journal_witness :
    processFoundryTagsCtx 1
        (lc "@UUID[JournalEntry." ++ lc "J2" ++ lc ".JournalEntryPage." ++ lc "p1"
          ++ rbLb ++ lc "Txt" ++ [rbrace])
        ⟨[lc "p1"], [⟨lc "J2", [lc "p1"]⟩], some (lc "J1")⟩ none
      = some (crossAnchor (lc "J2") (lc "p1") (lc "Txt")) :=
  C4_cross_journal ⟨[lc "p1"], [⟨lc "J2", [lc "p1"]⟩], some (lc "J1")⟩ none 0
    (lc "J2") (lc "p1") (lc "Txt") (by decide) (by decide) (by decide) (by decide) (by decide)

/-- Concrete instance of the Damage claim with a nested bracket pair in the
argument. -/
theorem C5_damage_nested_witness :
    processFoundryTags 1 (lc "@Damage[" ++ lc "2d6[fire]" ++ lc "]") [] none
      = some (strongWrap (lc "2d6[fire]")) :=
  C5_damage_nested [] none 0 (lc "2d6[fire]") (by decide) (by decide)

/-- Concrete instance of the unterminated-directive claim: both tags survive
verbatim when no closing bracket follows. -/
theorem C6_unterminated_witness :
    processFoundryTags 1 (lc "a " ++ lc "@Damage[" ++ lc "2d6") [] none
      = some (lc "a " ++ lc "@Damage[" ++ lc "2d6")
    ∧ processFoundryTags 1 (lc "a " ++ lc "@Check[" ++ lc "2d6") [] none
      = some (lc "a " ++ lc "@Check[" ++ lc "2d6") :=
  C6_unterminated [] none 0 (lc "a ") (lc "2d6") (by decide) (by decide) (by decide)

/-- Concrete instance of the amended Check claim: a save with a dc and the
basic flag yields the compact normalized label, and an unparsable labeled
directive falls back to its explicit label. -/
theorem C7_check_policy_witness :
    processFoundryTags 1 (lc "@Check[" ++ lc "reflex|dc:15|basic:true" ++ lc "]") [] none
      = some (strongWrap (lc "Basic_Reflex_DC15"))
    ∧ processFoundryTags 1
        (lc "@Check[" ++ lc "perception|20" ++ lc "]" ++ [lbrace] ++ lc "Lbl" ++ [rbrace]) [] none
      = some (strongWrap (lc "Lbl")) := by
  have h1 := (C7_check_policy [] none 0 (lc "reflex|dc:15|basic:true") (lc "X")
    (by decide) (by decide) (by decide) (by decide) (by decide) (by decide)).1
  have h2 := (C7_check_policy [] none 0 (lc "perception|20") (lc "Lbl")
    (by decide) (by decide) (by decide) (by decide) (by decide) (by decide)).2
  exact ⟨h1.trans (by decide), h2.trans (by decide)⟩

/-- Counterexample to claim C7 as stated: `@Check[perception|20]` parses a
dc but no type (perception is not a saving throw), and the source has no
best-effort branch — the raw argument is bold-wrapped, not rendered as
`Perception DC 20`. -/
theorem C7_check_counterexample :
    processFoundryTags 1 (lc "@Check[perception|20]") [] none
      = some (strongWrap (lc "perception|20"))
    ∧ strongWrap (lc "perception|20") ≠ lc "<strong>Perception DC 20</strong>" :=
  ⟨by decide, by decide⟩

/-- Concrete instance of the amended Trait claim with no dictionary: the
unlabeled spellings display the `localize` fallback of the key
`PF2E.TraitFireResistance` (its capitalized last segment
`TraitFireResistance`), and an explicit label wins. -/
theorem C8_trait_label_witness :
    processFoundryTags 1 (lc "@Trait[" ++ lc "fire-resistance" ++ lc "]") [] none
      = some (lc "<span class=\"trait-tooltip\" title=\"\"><code class=\"trait-code\">TraitFireResistance</code></span>")
    ∧ processFoundryTags 1
        (lc "@Trait[" ++ lc "fire-resistance" ++ lc "]" ++ [lbrace] ++ lc "Feu" ++ [rbrace]) [] none
      = some (lc "<span class=\"trait-tooltip\" title=\"\"><code class=\"trait-code\">Feu</code></span>")
    ∧ processFoundryTags 1 (lc "@Traits[" ++ lc "fire-resistance" ++ lc "]") [] none
      = some (lc "<span class=\"trait-tooltip\" title=\"\"><code class=\"trait-code\">TraitFireResistance</code></span>") := by
  have h := C8_trait_label [] none 0 (lc "fire-resistance") (lc "Feu")
    (by decide) (by decide) (by decide) (by decide) (by decide)
  exact ⟨h.1.trans (by decide), h.2.1.trans (by decide), h.2.2.trans (by decide)⟩

/-- Counterexample to claim C8 as stated: with no dictionary,
`@Trait[fire-resistance]` displays `TraitFireResistance` — the `localize`
fallback keeps the `Trait` prefix of the key's last segment — not the
claimed PascalCase slug `FireResistance`. -/
theorem C8_trait_counterexample :
    processFoundryTags 1 (lc "@Trait[fire-resistance]") [] none
      = some (lc "<span class=\"trait-tooltip\" title=\"\"><code class=\"trait-code\">TraitFireResistance</code></span>")
    ∧ processFoundryTags 1 (lc "@Trait[fire-resistance]") [] none
      ≠ some (lc "<span class=\"trait-tooltip\" title=\"\"><code class=\"trait-code\">FireResistance</code></span>") :=
  ⟨by decide, by decide⟩

/-- Concrete instance of the empty-value claim: the dictionary maps `E` to
the empty string, `localize` falls back to the key, and the Localize stage
expands to the empty output. -/
theorem C10_empty_value_witness :
    localize (some (.obj [(lc "E", .str (lc ""))])) (lc "E") [] = lc "E"
    ∧ processFoundryTags 2 (lc "@Localize[" ++ lc "E" ++ lc "]") []
        (some (.obj [(lc "E", .str (lc ""))])) = some [] :=
  C10_empty_value (.obj [(lc "E", .str (lc ""))]) (lc "E") [] 0 []
    (by decide) (by decide) (by decide)
